import Mathlib

/-!
Verification of the request-routing and dispatch engine of the typeofweb
server framework against its natural-language specification.

The definitions below are a shallow embedding of the TypeScript sources
(src/src/modules/router.ts and src/src/utils/serializeObject.ts).  Pieces of
the repository that are referenced but not included in the sources
(calculateSpecificity, the HTTP status code enumeration, cookie sealing and
route matching, which is delegated to Express) are modelled from the spec and
marked as such in their doc comments.
-/

set_option maxHeartbeats 1000000

/-! Generic machinery: lexicographic "greater than" on lists, modelling the
JavaScript string comparison operator, and a stable insertion sort modelling
Array.prototype.sort (stable per the ECMAScript spec). -/

/-- Lexicographic strict "greater than" on lists over a linear order.  Models
the JavaScript string comparison `a > b` (code-unit lexicographic order) when
applied to the lists of characters or digit scores. -/
def lexGt {α : Type} [LinearOrder α] : List α → List α → Bool
  | [], _ => false
  | _ :: _, [] => true
  | a :: as, b :: bs => if b < a then true else if a < b then false else lexGt as bs

theorem lexGt_irrefl {α : Type} [LinearOrder α] (l : List α) : lexGt l l = false := by
  induction l with
  | nil => rfl
  | cons a as ih => simp [lexGt, lt_irrefl, ih]

theorem lexGt_asymm {α : Type} [LinearOrder α] :
    ∀ {a b : List α}, lexGt a b = true → lexGt b a = false := by
  intro a
  induction a with
  | nil => intro b h; simp [lexGt] at h
  | cons x xs ih =>
    intro b h
    cases b with
    | nil => simp [lexGt]
    | cons y ys =>
      simp only [lexGt] at h ⊢
      rcases lt_trichotomy x y with hlt | heq | hgt
      · rw [if_neg (lt_asymm hlt), if_pos hlt] at h
        exact absurd h (by simp)
      · subst heq
        rw [if_neg (lt_irrefl x), if_neg (lt_irrefl x)] at h ⊢
        exact ih h
      · rw [if_neg (lt_asymm hgt), if_pos hgt]

theorem lexGt_total_of_ne {α : Type} [LinearOrder α] :
    ∀ {a b : List α}, a ≠ b → lexGt a b = true ∨ lexGt b a = true := by
  intro a
  induction a with
  | nil =>
    intro b hne
    cases b with
    | nil => exact absurd rfl hne
    | cons y ys => right; simp [lexGt]
  | cons x xs ih =>
    intro b hne
    cases b with
    | nil => left; simp [lexGt]
    | cons y ys =>
      rcases lt_trichotomy x y with hlt | heq | hgt
      · right
        simp only [lexGt]
        rw [if_pos hlt]
      · subst heq
        have hne' : xs ≠ ys := fun h => hne (by rw [h])
        rcases ih hne' with h | h
        · left
          simp only [lexGt]
          rw [if_neg (lt_irrefl x), if_neg (lt_irrefl x)]
          exact h
        · right
          simp only [lexGt]
          rw [if_neg (lt_irrefl x), if_neg (lt_irrefl x)]
          exact h
      · left
        simp only [lexGt]
        rw [if_pos hgt]

theorem lexGt_trans {α : Type} [LinearOrder α] :
    ∀ {a b c : List α}, lexGt a b = true → lexGt b c = true → lexGt a c = true := by
  intro a
  induction a with
  | nil => intro b c h1 _; simp [lexGt] at h1
  | cons x xs ih =>
    intro b c h1 h2
    cases b with
    | nil => simp [lexGt] at h2
    | cons y ys =>
      cases c with
      | nil => simp [lexGt]
      | cons z zs =>
        simp only [lexGt] at h1 h2 ⊢
        rcases lt_trichotomy x y with hxy | hxy | hxy
        · rw [if_neg (lt_asymm hxy), if_pos hxy] at h1
          exact absurd h1 (by simp)
        · subst hxy
          rw [if_neg (lt_irrefl x), if_neg (lt_irrefl x)] at h1
          rcases lt_trichotomy x z with hxz | hxz | hxz
          · rw [if_neg (lt_asymm hxz), if_pos hxz] at h2
            exact absurd h2 (by simp)
          · subst hxz
            rw [if_neg (lt_irrefl x), if_neg (lt_irrefl x)] at h2 ⊢
            exact ih h1 h2
          · rw [if_pos hxz]
        · rcases lt_trichotomy y z with hyz | hyz | hyz
          · rw [if_neg (lt_asymm hyz), if_pos hyz] at h2
            exact absurd h2 (by simp)
          · subst hyz
            rw [if_pos hxy]
          · rw [if_pos (lt_trans hyz hxy)]

/-- Insert an element into a list relative to a JavaScript-style comparator:
the element is placed before the first position whose head does not strictly
precede it.  Together with `sortByCmp` this models a stable sort. -/
def insertCmp {α : Type} (cmp : α → α → Int) (x : α) : List α → List α
  | [] => [x]
  | y :: ys => if cmp x y ≤ 0 then x :: y :: ys else y :: insertCmp cmp x ys

/-- Stable insertion sort by a JavaScript-style comparator (negative: first
argument first; positive: second argument first).  Models the stable
Array.prototype.sort. -/
def sortByCmp {α : Type} (cmp : α → α → Int) : List α → List α
  | [] => []
  | x :: xs => insertCmp cmp x (sortByCmp cmp xs)

theorem insertCmp_perm {α : Type} (cmp : α → α → Int) (x : α) (l : List α) :
    (insertCmp cmp x l).Perm (x :: l) := by
  induction l with
  | nil => simp [insertCmp]
  | cons y ys ih =>
    simp only [insertCmp]
    split
    · exact List.Perm.refl _
    · exact (ih.cons y).trans (List.Perm.swap x y ys)

theorem sortByCmp_perm {α : Type} (cmp : α → α → Int) (l : List α) :
    (sortByCmp cmp l).Perm l := by
  induction l with
  | nil => simp [sortByCmp]
  | cons x xs ih =>
    exact (insertCmp_perm cmp x (sortByCmp cmp xs)).trans (ih.cons x)

theorem insertCmp_chain {α : Type} (cmp : α → α → Int)
    (hasym : ∀ a b, ¬ cmp a b ≤ 0 → cmp b a ≤ 0) (x : α) :
    ∀ l : List α, l.Chain' (fun a b => cmp a b ≤ 0) →
      (insertCmp cmp x l).Chain' (fun a b => cmp a b ≤ 0) := by
  intro l
  induction l with
  | nil => intro _; simp [insertCmp]
  | cons y ys ih =>
    intro h
    simp only [insertCmp]
    by_cases hxy : cmp x y ≤ 0
    · rw [if_pos hxy]
      exact List.chain'_cons.mpr ⟨hxy, h⟩
    · rw [if_neg hxy]
      have hyx := hasym _ _ hxy
      have hins := ih h.tail
      cases ys with
      | nil =>
        simp only [insertCmp]
        exact List.chain'_cons.mpr ⟨hyx, List.chain'_singleton x⟩
      | cons z zs =>
        simp only [insertCmp] at hins ⊢
        by_cases hxz : cmp x z ≤ 0
        · rw [if_pos hxz] at hins ⊢
          exact List.chain'_cons.mpr ⟨hyx, hins⟩
        · rw [if_neg hxz] at hins ⊢
          exact List.chain'_cons.mpr ⟨(List.chain'_cons.mp h).1, hins⟩

theorem sortByCmp_chain {α : Type} (cmp : α → α → Int)
    (hasym : ∀ a b, ¬ cmp a b ≤ 0 → cmp b a ≤ 0) (l : List α) :
    (sortByCmp cmp l).Chain' (fun a b => cmp a b ≤ 0) := by
  induction l with
  | nil => simp [sortByCmp]
  | cons x xs ih => exact insertCmp_chain cmp hasym x _ ih

theorem sortByCmp_of_chain {α : Type} (cmp : α → α → Int) :
    ∀ l : List α, l.Chain' (fun a b => cmp a b ≤ 0) → sortByCmp cmp l = l := by
  intro l
  induction l with
  | nil => intro _; rfl
  | cons x xs ih =>
    intro h
    simp only [sortByCmp]
    rw [ih h.tail]
    cases xs with
    | nil => rfl
    | cons y ys =>
      simp only [insertCmp]
      rw [if_pos (List.chain'_cons.mp h).1]

/-- Sorting by a comparator that never declares both orders strictly positive
is idempotent. -/
theorem sortByCmp_idem {α : Type} (cmp : α → α → Int)
    (hasym : ∀ a b, ¬ cmp a b ≤ 0 → cmp b a ≤ 0) (l : List α) :
    sortByCmp cmp (sortByCmp cmp l) = sortByCmp cmp l :=
  sortByCmp_of_chain cmp _ (sortByCmp_chain cmp hasym l)

theorem sortByCmp_pairwise {α : Type} (cmp : α → α → Int)
    (hasym : ∀ a b, ¬ cmp a b ≤ 0 → cmp b a ≤ 0)
    (htrans : ∀ a b c, cmp a b ≤ 0 → cmp b c ≤ 0 → cmp a c ≤ 0) (l : List α) :
    (sortByCmp cmp l).Pairwise (fun a b => cmp a b ≤ 0) := by
  haveI : IsTrans α (fun a b => cmp a b ≤ 0) := ⟨fun a b c => htrans a b c⟩
  exact List.chain'_iff_pairwise.mp (sortByCmp_chain cmp hasym l)

theorem pairwise_sublist_pair {α : Type} {R : α → α → Prop} (hrefl : ∀ a, R a a) :
    ∀ (l : List α) (x y : α), l.Pairwise R → x ∈ l → y ∈ l → ¬ R y x →
      [x, y].Sublist l := by
  intro l
  induction l with
  | nil => intro x y _ hx _ _; cases hx
  | cons h t ih =>
    intro x y hp hx hy hnR
    rcases List.mem_cons.mp hx with hxh | hxt
    · subst hxh
      rcases List.mem_cons.mp hy with hyh | hyt
      · rw [hyh] at hnR
        exact absurd (hrefl _) hnR
      · exact (List.singleton_sublist.mpr hyt).cons₂ x
    · rcases List.mem_cons.mp hy with hyh | hyt
      · subst hyh
        exact absurd ((List.pairwise_cons.mp hp).1 x hxt) hnR
      · exact (ih x y (List.pairwise_cons.mp hp).2 hxt hyt hnR).cons h

/-- In the sorted list, an element that strictly precedes another (the
comparator refuses the reverse order) appears before it. -/
theorem sortByCmp_order {α : Type} (cmp : α → α → Int)
    (hasym : ∀ a b, ¬ cmp a b ≤ 0 → cmp b a ≤ 0)
    (htrans : ∀ a b c, cmp a b ≤ 0 → cmp b c ≤ 0 → cmp a c ≤ 0)
    (hrefl : ∀ a, cmp a a ≤ 0)
    (l : List α) (x y : α) (hx : x ∈ l) (hy : y ∈ l) (hnR : ¬ cmp y x ≤ 0) :
    [x, y].Sublist (sortByCmp cmp l) :=
  pairwise_sublist_pair hrefl _ x y (sortByCmp_pairwise cmp hasym htrans l)
    ((sortByCmp_perm cmp l).mem_iff.mpr hx)
    ((sortByCmp_perm cmp l).mem_iff.mpr hy) hnR

/-! The router (src/src/modules/router.ts).  Routes are sorted at
initialization time by `initRouter`; the comparator below is the one passed to
Array.prototype.sort in the later variant of the file (the earlier variant
only adds a short-circuit returning 0 for equal paths). -/

/-- HTTP methods of the route registration API. -/
inductive Method where
  | get | post | put | patch | delete
deriving DecidableEq, Repr

/-- The part of a registered route that the router's sort inspects. -/
structure RouteEntry where
  method : Method
  path : String
deriving DecidableEq, Repr

/-- Helper for `splitSegs`: accumulates the current segment (reversed) while
walking the characters. -/
def splitSegsAux (cur : List Char) : List Char → List (List Char)
  | [] => [cur.reverse]
  | c :: cs => if c = '/' then cur.reverse :: splitSegsAux [] cs else splitSegsAux (c :: cur) cs

/-- JavaScript `path.split('/')` for a single-character separator: the list of
segments of a path, including empty ones (so "/a/b" has segments "", "a", "b"). -/
def splitSegs (path : String) : List (List Char) := splitSegsAux [] path.data

/-- Modelled from the spec: `calculateSpecificity` lives in
src/utils/routeSpecificity.ts, which is not included in the sources.  Per the
spec, specificity is "computed per path as an ordered sequence of per-segment
specificity scores (literal > parameter)" and sequences are "compared
lexicographically"; a literal segment receives the smaller score so that, with
the comparator of `initRouter` placing the smaller specificity value first,
literal routes sort before parameterized ones. -/
def calculateSpecificity (path : String) : List Nat :=
  (splitSegs path).map (fun seg => if seg.contains ':' then 1 else 0)

/-- The comparator of `initRouter`'s route sort (router.ts): compare
specificities first, break ties by plain lexicographic comparison of the full
path; returns 1 when the second route should come first and -1 otherwise. -/
def routerCompare (a b : RouteEntry) : Int :=
  let aFirst : Int := -1
  let bFirst : Int := 1
  let aSpecificity := calculateSpecificity a.path
  let bSpecificity := calculateSpecificity b.path
  if aSpecificity ≠ bSpecificity then
    if lexGt aSpecificity bSpecificity then bFirst else aFirst
  else
    if lexGt a.path.data b.path.data then bFirst else aFirst

/-- The route ordering performed by `initRouter`: a stable sort of the
registered routes by `routerCompare`. -/
def sortRoutes (routes : List RouteEntry) : List RouteEntry :=
  sortByCmp routerCompare routes

/-- Modelled from the spec: matching of one path pattern segment (route
matching itself is delegated to Express and not part of the sources).  A
parameter segment (containing ':') matches any incoming segment; a literal
segment matches only itself. -/
def segMatches (pat seg : List Char) : Bool :=
  pat.contains ':' || pat == seg

/-- Modelled from the spec: a pattern matches an incoming path when both have
the same number of segments and each pattern segment matches the incoming
segment at its position. -/
def pathMatches (pat path : String) : Bool :=
  let ps := splitSegs pat
  let ss := splitSegs path
  ps.length == ss.length && (List.zip ps ss).all (fun z => segMatches z.1 z.2)

/-- Modelled from the spec: "matching at request time walks routes in this
fixed order and selects the first whose pattern matches the incoming method
and path". -/
def resolveRoute (routes : List RouteEntry) (m : Method) (path : String) : Option RouteEntry :=
  (sortRoutes routes).find? (fun r => decide (r.method = m) && pathMatches r.path path)

theorem lexGt_eq_of_both_false {α : Type} [LinearOrder α] {a b : List α}
    (h1 : lexGt a b = false) (h2 : lexGt b a = false) : a = b := by
  by_contra hne
  rcases lexGt_total_of_ne hne with h | h
  · rw [h1] at h; exact absurd h (by simp)
  · rw [h2] at h; exact absurd h (by simp)

theorem lexGt_neg_trans {α : Type} [LinearOrder α] {a b c : List α}
    (h1 : lexGt a b = false) (h2 : lexGt b c = false) : lexGt a c = false := by
  by_contra hac
  have hac' : lexGt a c = true := by
    cases h : lexGt a c
    · exact absurd h hac
    · rfl
  by_cases hab : a = b
  · subst hab
    rw [h2] at hac'
    exact absurd hac' (by simp)
  · rcases lexGt_total_of_ne hab with h | hba
    · rw [h1] at h; exact absurd h (by simp)
    · by_cases hbc : b = c
      · subst hbc
        rw [h1] at hac'
        exact absurd hac' (by simp)
      · rcases lexGt_total_of_ne hbc with h | hcb
        · rw [h2] at h; exact absurd h (by simp)
        · have hca := lexGt_trans hcb hba
          rw [lexGt_asymm hac'] at hca
          exact absurd hca (by simp)

theorem routerCompare_self_le (a : RouteEntry) : routerCompare a a ≤ 0 := by
  simp only [routerCompare]
  rw [if_neg (by simp)]
  rw [if_neg (by rw [lexGt_irrefl]; simp)]
  decide

theorem routerCompare_asym (a b : RouteEntry) (h : ¬ routerCompare a b ≤ 0) :
    routerCompare b a ≤ 0 := by
  simp only [routerCompare] at h ⊢
  by_cases hspec : calculateSpecificity a.path = calculateSpecificity b.path
  · rw [if_neg (by simp [hspec])] at h
    rw [if_neg (by simp [hspec])]
    by_cases hp : lexGt a.path.data b.path.data = true
    · rw [lexGt_asymm hp]
      simp
    · rw [if_neg hp] at h
      exact absurd (by decide : (-1 : Int) ≤ 0) h
  · rw [if_pos hspec] at h
    rw [if_pos (fun hh => hspec hh.symm)]
    by_cases hs : lexGt (calculateSpecificity a.path) (calculateSpecificity b.path) = true
    · rw [lexGt_asymm hs]
      simp
    · rw [if_neg hs] at h
      exact absurd (by decide : (-1 : Int) ≤ 0) h

theorem routerCompare_le_iff (a b : RouteEntry) :
    routerCompare a b ≤ 0 ↔
      (lexGt (calculateSpecificity a.path) (calculateSpecificity b.path) = false ∧
        (calculateSpecificity a.path = calculateSpecificity b.path →
          lexGt a.path.data b.path.data = false)) := by
  simp only [routerCompare]
  by_cases hspec : calculateSpecificity a.path = calculateSpecificity b.path
  · rw [if_neg (by simp [hspec])]
    constructor
    · intro h
      refine ⟨by rw [hspec, lexGt_irrefl], fun _ => ?_⟩
      by_cases hp : lexGt a.path.data b.path.data = true
      · rw [if_pos hp] at h
        exact absurd h (by decide)
      · exact Bool.eq_false_iff.mpr hp
    · rintro ⟨_, hp⟩
      rw [hp hspec]
      decide
  · rw [if_pos hspec]
    constructor
    · intro h
      by_cases hs : lexGt (calculateSpecificity a.path) (calculateSpecificity b.path) = true
      · rw [if_pos hs] at h
        exact absurd h (by decide)
      · exact ⟨Bool.eq_false_iff.mpr hs, fun hh => absurd hh hspec⟩
    · rintro ⟨hs, _⟩
      rw [hs]
      decide

theorem routerCompare_trans (a b c : RouteEntry)
    (h1 : routerCompare a b ≤ 0) (h2 : routerCompare b c ≤ 0) : routerCompare a c ≤ 0 := by
  rw [routerCompare_le_iff] at h1 h2 ⊢
  obtain ⟨hs1, hp1⟩ := h1
  obtain ⟨hs2, hp2⟩ := h2
  refine ⟨lexGt_neg_trans hs1 hs2, fun hac => ?_⟩
  have hab : calculateSpecificity a.path = calculateSpecificity b.path := by
    by_contra hne
    rcases lexGt_total_of_ne hne with h | h
    · rw [hs1] at h; exact absurd h (by simp)
    · have : lexGt (calculateSpecificity b.path) (calculateSpecificity c.path) = true := by
        rw [← hac]; exact h
      rw [hs2] at this; exact absurd this (by simp)
  have hbc : calculateSpecificity b.path = calculateSpecificity c.path := by
    rw [← hab]; exact hac
  exact lexGt_neg_trans (hp1 hab) (hp2 hbc)

theorem calcSpec_allZero (path : String)
    (h : (splitSegs path).all (fun seg => !seg.contains ':') = true) :
    ∀ x ∈ calculateSpecificity path, x = 0 := by
  intro x hx
  simp only [calculateSpecificity, List.mem_map] at hx
  obtain ⟨seg, hseg, hxeq⟩ := hx
  have hc := (List.all_eq_true.mp h) seg hseg
  simp only [Bool.not_eq_true'] at hc
  rw [← hxeq, if_neg (by rw [hc]; decide)]

theorem calcSpec_exPos (path : String)
    (h : (splitSegs path).any (fun seg => seg.contains ':') = true) :
    ∃ x ∈ calculateSpecificity path, x ≠ 0 := by
  obtain ⟨seg, hseg, hcol⟩ := List.any_eq_true.mp h
  refine ⟨1, ?_, by decide⟩
  simp only [calculateSpecificity, List.mem_map]
  exact ⟨seg, hseg, by rw [if_pos hcol]⟩

theorem lexGt_of_allZero_exPos :
    ∀ (bs as : List Nat), bs.length = as.length → (∀ x ∈ as, x = 0) →
      (∃ x ∈ bs, x ≠ 0) → lexGt bs as = true := by
  intro bs
  induction bs with
  | nil =>
    intro as _ _ hex
    obtain ⟨x, hx, _⟩ := hex
    cases hx
  | cons b bs' ih =>
    intro as hlen hz hex
    cases as with
    | nil => simp at hlen
    | cons a as' =>
      have ha : a = 0 := hz a (List.mem_cons_self a as')
      by_cases hb : b = 0
      · subst hb
        subst ha
        have hex' : ∃ x ∈ bs', x ≠ 0 := by
          obtain ⟨x, hx, hxne⟩ := hex
          rcases List.mem_cons.mp hx with h0 | hmem
          · exact absurd h0.symm (Ne.symm hxne)
          · exact ⟨x, hmem, hxne⟩
        have h00 : ¬ (0 : Nat) < 0 := lt_irrefl 0
        simp only [lexGt, if_neg h00]
        exact ih as' (by simpa using hlen) (fun x hx => hz x (List.mem_cons_of_mem 0 hx)) hex'
      · have : a < b := by omega
        simp only [lexGt]
        rw [if_pos this]

theorem pathMatches_len {pat path : String} (h : pathMatches pat path = true) :
    (splitSegs pat).length = (splitSegs path).length := by
  simp only [pathMatches, Bool.and_eq_true, beq_iff_eq] at h
  exact h.1

theorem routerCompare_spec_ne_gt (a b : RouteEntry)
    (hgt : lexGt (calculateSpecificity a.path) (calculateSpecificity b.path) = true) :
    routerCompare a b = 1 ∧ routerCompare b a = -1 := by
  have hne : calculateSpecificity a.path ≠ calculateSpecificity b.path := by
    intro h
    rw [h, lexGt_irrefl] at hgt
    exact absurd hgt (by simp)
  constructor
  · simp only [routerCompare]
    rw [if_pos hne, if_pos hgt]
  · simp only [routerCompare]
    rw [if_pos (fun h => hne h.symm), if_neg (by rw [lexGt_asymm hgt]; simp)]

theorem routerCompare_spec_eq_gt (a b : RouteEntry)
    (hspec : calculateSpecificity a.path = calculateSpecificity b.path)
    (hgt : lexGt a.path.data b.path.data = true) :
    routerCompare a b = 1 ∧ routerCompare b a = -1 := by
  constructor
  · simp only [routerCompare]
    rw [if_neg (by simp [hspec]), if_pos hgt]
  · simp only [routerCompare]
    rw [if_neg (by simp [hspec]), if_neg (by rw [lexGt_asymm hgt]; simp)]

theorem routerCompare_lit_par (m m' : Method) (litPath parPath incoming : String)
    (hlit : (splitSegs litPath).all (fun seg => !seg.contains ':') = true)
    (hpar : (splitSegs parPath).any (fun seg => seg.contains ':') = true)
    (hmlit : pathMatches litPath incoming = true)
    (hmpar : pathMatches parPath incoming = true) :
    routerCompare ⟨m, litPath⟩ ⟨m', parPath⟩ = -1 ∧
      routerCompare ⟨m', parPath⟩ ⟨m, litPath⟩ = 1 := by
  have hlen : (calculateSpecificity parPath).length = (calculateSpecificity litPath).length := by
    simp only [calculateSpecificity, List.length_map]
    rw [pathMatches_len hmpar, ← pathMatches_len hmlit]
  have hgt : lexGt (calculateSpecificity parPath) (calculateSpecificity litPath) = true :=
    lexGt_of_allZero_exPos _ _ hlen (calcSpec_allZero litPath hlit) (calcSpec_exPos parPath hpar)
  have h := routerCompare_spec_ne_gt ⟨m', parPath⟩ ⟨m, litPath⟩ hgt
  exact ⟨h.2, h.1⟩

/-- C1: the router's sort places a literal route before a parameterized route
that matches the same incoming path, in every set of registered routes, and
for the two-route set dispatch therefore selects the literal route under
either registration order.  (Specificity computation and route matching are
modelled from the spec; the comparator is from the source.) -/
theorem c1_literal_route_wins (m : Method) (litPath parPath incoming : String)
    (hlit : (splitSegs litPath).all (fun seg => !seg.contains ':') = true)
    (hpar : (splitSegs parPath).any (fun seg => seg.contains ':') = true)
    (hmlit : pathMatches litPath incoming = true)
    (hmpar : pathMatches parPath incoming = true) :
    (∀ l : List RouteEntry, (⟨m, litPath⟩ : RouteEntry) ∈ l → (⟨m, parPath⟩ : RouteEntry) ∈ l →
        [(⟨m, litPath⟩ : RouteEntry), ⟨m, parPath⟩].Sublist (sortRoutes l)) ∧
    resolveRoute [⟨m, litPath⟩, ⟨m, parPath⟩] m incoming = some ⟨m, litPath⟩ ∧
    resolveRoute [⟨m, parPath⟩, ⟨m, litPath⟩] m incoming = some ⟨m, litPath⟩ := by
  obtain ⟨hlp, hpl⟩ := routerCompare_lit_par m m litPath parPath incoming hlit hpar hmlit hmpar
  have hsorted12 : sortRoutes [⟨m, litPath⟩, ⟨m, parPath⟩] = [⟨m, litPath⟩, ⟨m, parPath⟩] := by
    simp only [sortRoutes, sortByCmp, insertCmp]
    rw [if_pos (by rw [hlp]; decide)]
  have hsorted21 : sortRoutes [⟨m, parPath⟩, ⟨m, litPath⟩] = [⟨m, litPath⟩, ⟨m, parPath⟩] := by
    simp only [sortRoutes, sortByCmp, insertCmp]
    rw [if_neg (by rw [hpl]; decide)]
  refine ⟨?_, ?_, ?_⟩
  · intro l hl hp
    refine sortByCmp_order routerCompare routerCompare_asym routerCompare_trans
      routerCompare_self_le l _ _ hl hp ?_
    rw [hpl]
    decide
  · simp only [resolveRoute, sortRoutes] at hsorted12 ⊢
    rw [hsorted12]
    simp [List.find?, hmlit]
  · simp only [resolveRoute, sortRoutes] at hsorted21 ⊢
    rw [hsorted21]
    simp [List.find?, hmlit]

/-- C1 witness: the concrete example from the spec, with the parameterized
route registered first. -/
theorem c1_witness :
    resolveRoute [⟨Method.get, "/users/:id"⟩, ⟨Method.get, "/users/active"⟩]
        Method.get "/users/active" = some ⟨Method.get, "/users/active"⟩ :=
  (c1_literal_route_wins Method.get "/users/active" "/users/:id" "/users/active"
    (by decide) (by decide) (by decide) (by decide)).2.2

/-- C9 counterexample: two distinct registered (method, path) routes sharing
the same path (GET /a and POST /a).  The comparator declares each of them to
precede the other (both comparisons return -1), so it is not the case that
exactly one of the two precedes the other: the order claimed for all pairs of
distinct (method, path) routes is not strict on such pairs. -/
theorem c9_counterexample :
    (⟨Method.get, "/a"⟩ : RouteEntry) ≠ ⟨Method.post, "/a"⟩ ∧
    routerCompare ⟨Method.get, "/a"⟩ ⟨Method.post, "/a"⟩ < 0 ∧
    routerCompare ⟨Method.post, "/a"⟩ ⟨Method.get, "/a"⟩ < 0 := by
  refine ⟨by decide, by decide, by decide⟩

/-- C9 amended: for all pairs of routes with distinct paths the comparator
yields a strict, repeatable order (exactly one of the two precedes the
other), and sorting an already-sorted route list leaves it unchanged
(sorting is idempotent, for every route list). -/
theorem c9_strict_on_distinct_paths_and_sort_idem :
    (∀ a b : RouteEntry, a.path ≠ b.path →
        (routerCompare a b < 0 ∧ 0 < routerCompare b a) ∨
        (routerCompare b a < 0 ∧ 0 < routerCompare a b)) ∧
    (∀ l : List RouteEntry, sortRoutes (sortRoutes l) = sortRoutes l) := by
  constructor
  · intro a b hne
    have hdne : a.path.data ≠ b.path.data := fun h => hne (String.ext h)
    by_cases hspec : calculateSpecificity a.path = calculateSpecificity b.path
    · rcases lexGt_total_of_ne hdne with h | h
      · have hc := routerCompare_spec_eq_gt a b hspec h
        right
        rw [hc.1, hc.2]
        exact ⟨by decide, by decide⟩
      · have hc := routerCompare_spec_eq_gt b a hspec.symm h
        left
        rw [hc.1, hc.2]
        exact ⟨by decide, by decide⟩
    · rcases lexGt_total_of_ne hspec with h | h
      · have hc := routerCompare_spec_ne_gt a b h
        right
        rw [hc.1, hc.2]
        exact ⟨by decide, by decide⟩
      · have hc := routerCompare_spec_ne_gt b a h
        left
        rw [hc.1, hc.2]
        exact ⟨by decide, by decide⟩
  · intro l
    exact sortByCmp_idem routerCompare routerCompare_asym l

/-- C9 witness: the amended strict order at two concrete distinct paths, and
idempotence of the sort on a concrete route list. -/
theorem c9_witness :
    ((routerCompare ⟨Method.get, "/a"⟩ ⟨Method.get, "/b"⟩ < 0 ∧
        0 < routerCompare ⟨Method.get, "/b"⟩ ⟨Method.get, "/a"⟩) ∨
      (routerCompare ⟨Method.get, "/b"⟩ ⟨Method.get, "/a"⟩ < 0 ∧
        0 < routerCompare ⟨Method.get, "/a"⟩ ⟨Method.get, "/b"⟩)) ∧
    sortRoutes (sortRoutes [⟨Method.get, "/b"⟩, ⟨Method.get, "/a"⟩]) =
      sortRoutes [⟨Method.get, "/b"⟩, ⟨Method.get, "/a"⟩] :=
  ⟨c9_strict_on_distinct_paths_and_sort_idem.1 ⟨Method.get, "/a"⟩ ⟨Method.get, "/b"⟩ (by decide),
    c9_strict_on_distinct_paths_and_sort_idem.2 _⟩

/-! The request dispatcher (routeToExpressHandler and errorMiddleware in
src/src/modules/router.ts, later variant, together with the error middleware
installed by initRouter).  JavaScript values are modelled by `JsonV`
(including the distinguished `undefined`), thrown errors by `ErrV`, and the
observable behaviour of one request by a trace of events.  Time
(performance.now()) is modelled by the number of events emitted so far, which
is monotone along the trace. -/

/-- JavaScript values flowing through the dispatcher (JSON values plus
`undefined`). -/
inductive JsonV where
  | null
  | undef
  | bool (b : Bool)
  | num (n : Int)
  | str (s : String)
  | arr (elems : List JsonV)
  | obj (fields : List (String × JsonV))

/-- JavaScript truthiness, as used by `if (requestMetadata)` in the plugin
loop. -/
def jsTruthy : JsonV → Bool
  | .null => false
  | .undef => false
  | .bool b => b
  | .num n => n != 0
  | .str s => !(s == "")
  | .arr _ => true
  | .obj _ => true

/-- Thrown errors, following the error taxonomy of the repository
(ValidationError from the schema library, HttpError from src/utils/errors.ts
— modelled from the spec: explicit status + message + body —, status-carrying
errors, and everything else).  `httpErrorJ` and `httpErrorE` are the same
HttpError class; the body of an HttpError is either a plain JSON value or a
previously caught error, reflecting the untyped body field. -/
inductive ErrV where
  | validationError (message : String) (details : JsonV)
  | httpErrorJ (statusCode : Nat) (message : String) (body : JsonV)
  | httpErrorE (statusCode : Nat) (message : String) (body : ErrV)
  | statusError (statusCode : Nat)
  | otherError (v : JsonV)

/-- Modelled from the spec: the reverse mapping of the HttpStatusCode
enumeration (src/modules/httpStatusCodes.ts is not in the sources), used by
the error middleware for status errors. -/
def statusName (c : Nat) : String :=
  if c = 200 then "OK"
  else if c = 204 then "NoContent"
  else if c = 400 then "BadRequest"
  else if c = 500 then "InternalServerError"
  else ""

/-- JSON serialization of an error object as performed by res.json in the
error middleware (an Error serializes to an object of its own fields). -/
def errToJson : ErrV → JsonV
  | .validationError m d =>
      .obj [("name", .str "ValidationError"), ("message", .str m), ("details", d)]
  | .httpErrorJ s m b =>
      .obj [("name", .str "HttpError"), ("statusCode", .num s), ("message", .str m), ("body", b)]
  | .httpErrorE s m b =>
      .obj [("name", .str "HttpError"), ("statusCode", .num s), ("message", .str m),
        ("body", errToJson b)]
  | .statusError s => .obj [("statusCode", .num s)]
  | .otherError v => v

/-- The status code carried by an error, when its kind carries one. -/
def errStatusCode : ErrV → Option Nat
  | .validationError _ _ => none
  | .httpErrorJ s _ _ => some s
  | .httpErrorE s _ _ => some s
  | .statusError s => some s
  | .otherError _ => none

/-- State of the transport response: whether headers have been written, and
the status code registered by the toolkit's setStatus (res.locals under the
CUSTOM_STATUS_CODE symbol). -/
structure ResState where
  headersSent : Bool
  customStatus : Option Nat

/-- The toolkit's setStatus: records the custom status code on the response
locals. -/
def setStatus (statusCode : Nat) (res : ResState) : ResState :=
  { res with customStatus := some statusCode }

/-- The per-request object constructed by the dispatcher after input
validation. -/
structure Req where
  path : String
  params : JsonV
  query : JsonV
  payload : JsonV
  cookies : List (String × String)
  pluginsMeta : List (String × JsonV)
  id : Nat
  timestamp : Nat

/-- A registered plugin: a name and an optional request hook.  A hook
receives the request built so far and may act on the response state through
the toolkit; it returns its metadata value.  A plugin whose internal value is
null or whose request member is not a function is modelled by `none`. -/
structure Plugin where
  name : String
  request? : Option (Req → ResState → JsonV × ResState)

/-- A registered route as seen by routeToExpressHandler: optional validators
for params, query, payload and response (each either rejects with a thrown
error or returns the validated value), and the handler, which may itself
throw (modelled by Except) and act on the response state through the
toolkit. -/
structure RouteM where
  path : String
  validParams : Option (JsonV → Except ErrV JsonV)
  validQuery : Option (JsonV → Except ErrV JsonV)
  validPayload : Option (JsonV → Except ErrV JsonV)
  validResponse : Option (JsonV → Except ErrV JsonV)
  handler : Req → ResState → Except ErrV JsonV × ResState

/-- The raw incoming request before validation. -/
structure RawReq where
  params : JsonV
  query : JsonV
  payload : JsonV
  cookies : List (String × String)

/-- Validation slots, in the order the dispatcher visits them. -/
inductive Slot where
  | params | query | payload | response
deriving DecidableEq, Repr

/-- Observable events of one request, in emission order.  evWrite is the
response write (body `none` models res.end(), `some v` models res.json(v));
the timestamp recorded in evEmitAfterResponse is the clock value
(number of previously emitted events) at the moment the event is built. -/
inductive Ev where
  | evValidate (slot : Slot)
  | evPluginRun (name : String)
  | evEmitRequest
  | evHandler
  | evWarnUndefined
  | evEmitError (e : ErrV)
  | evNextUnhandled (e : ErrV)
  | evWrite (status : Nat) (body : Option JsonV)
  | evEmitResponse (v : JsonV)
  | evEmitAfterResponse (payload : JsonV) (request : Req) (status : Nat) (timestamp : Nat)

/-- One validation slot: when a validator is configured it runs (emitting a
validation event) and may throw; otherwise the raw value passes through
unchanged, exactly as `route.validation.x ? validate(...)(value) : value`
wrapped in tryCatch. -/
def runVal (v : Option (JsonV → Except ErrV JsonV)) (slot : Slot) (x : JsonV) :
    List Ev × Except ErrV JsonV :=
  match v with
  | none => ([], .ok x)
  | some f => ([Ev.evValidate slot], f x)

/-- The events of the three input validations in dispatcher order. -/
def valTrace (route : RouteM) (raw : RawReq) : List Ev :=
  (runVal route.validParams Slot.params raw.params).1 ++
    (runVal route.validQuery Slot.query raw.query).1 ++
    (runVal route.validPayload Slot.payload raw.payload).1

/-- Decoding of one cookie value: a value recognized as sealed is attempted
against the unseal function; a failed unseal (modelled by `none`) is swallowed and the
raw, still-sealed string is kept. -/
def decodeCookieValue (isSealed : String → Bool) (unsealF : String → Option String)
    (value : String) : String :=
  if isSealed value then
    match unsealF value with
    | some u => u
    | none => value
  else value

/-- Cookie decoding for the whole request: every cookie is decoded
independently; no failure is possible. -/
def decodeCookies (isSealed : String → Bool) (unsealF : String → Option String)
    (cookies : List (String × String)) : List (String × String) :=
  cookies.map (fun nv => (nv.1, decodeCookieValue isSealed unsealF nv.2))

/-- The request object as constructed by the dispatcher once all three input
validations have succeeded: validated values, decoded cookies, an empty
plugins namespace, and the timestamp taken at construction time. -/
def builtReq (route : RouteM) (isSealed : String → Bool) (unsealF : String → Option String)
    (requestId : Nat) (raw : RawReq) (paramsVal queryVal payloadVal : JsonV) : Req :=
  { path := route.path
    params := paramsVal
    query := queryVal
    payload := payloadVal
    cookies := decodeCookies isSealed unsealF raw.cookies
    pluginsMeta := []
    id := requestId
    timestamp := (valTrace route raw).length }

/-- The plugin pipeline: the accumulator-over-promises reduce of
routeToExpressHandler.  A plugin with no request hook returns the accumulator
untouched; a hooked plugin first awaits the accumulator (so hooks run
strictly in registration order), runs its hook on the request built so far,
and records the returned metadata under the plugin's name when it is
truthy. -/
def runPlugins : List Plugin → Req → ResState → List Ev × Req × ResState
  | [], req, res => ([], req, res)
  | p :: ps, req, res =>
    match p.request? with
    | none => runPlugins ps req res
    | some hook =>
      let m := hook req res
      let req' :=
        if jsTruthy m.1 then { req with pluginsMeta := req.pluginsMeta ++ [(p.name, m.1)] }
        else req
      let rest := runPlugins ps req' m.2
      (Ev.evPluginRun p.name :: rest.1, rest.2)

/-- One step of the plugin pipeline as an explicit sequential fold step (used
to state that the pipeline is exactly a left fold in registration order). -/
def runPluginsStep (st : List Ev × Req × ResState) (p : Plugin) : List Ev × Req × ResState :=
  match p.request? with
  | none => st
  | some hook =>
    let m := hook st.2.1 st.2.2
    let req' :=
      if jsTruthy m.1 then { st.2.1 with pluginsMeta := st.2.1.pluginsMeta ++ [(p.name, m.1)] }
      else st.2.1
    (st.1 ++ [Ev.evPluginRun p.name], req', m.2)

/-- The status written by the error middleware for each error kind:
ValidationError to 400, HttpError and status-carrying errors to their own
status, everything else to 500. -/
def errWriteStatus : ErrV → Nat
  | .validationError _ _ => 400
  | .httpErrorJ s _ _ => s
  | .httpErrorE s _ _ => s
  | .statusError s => s
  | .otherError _ => 500

/-- The JSON body written by the error middleware for each error kind,
mirroring the res.json calls of errorMiddleware in router.ts. -/
def errWriteBody : ErrV → JsonV
  | .validationError m d =>
      .obj [("name", .str "ValidationError"), ("message", .str m), ("body", d)]
  | .httpErrorJ _ m b =>
      .obj [("name", .str "HttpError"), ("message", .str m), ("body", b)]
  | .httpErrorE _ m b =>
      .obj [("name", .str "HttpError"), ("message", .str m), ("body", errToJson b)]
  | .statusError s =>
      .obj [("name", .str (statusName s)), ("body", errToJson (.statusError s))]
  | .otherError v => v

/-- The error middleware installed by initRouter: emit the `:error` event;
forward past the router when headers were already sent; otherwise write the
status and JSON body determined by the error kind. -/
def errorMiddleware (res : ResState) (err : ErrV) : List Ev × ResState :=
  if res.headersSent then
    ([Ev.evEmitError err, Ev.evNextUnhandled err], res)
  else
    ([Ev.evEmitError err, Ev.evWrite (errWriteStatus err) (some (errWriteBody err))],
      { res with headersSent := true })

/-- How a response-validation failure is wrapped before being forwarded: a
ValidationError keeps its message and details, anything else is wrapped
generically — in both cases as an HttpError with status 500
(InternalServerError). -/
def responseErrorWrap : ErrV → ErrV
  | .validationError m d => .httpErrorJ 500 m d
  | e => .httpErrorE 500 "InternalServerError" e

/-- The status fallback at finalization: null or undefined map to 204
NoContent, anything else to 200 OK (status code values modelled from the
spec's HttpStatusCode enumeration). -/
def fallbackStatusCode : JsonV → Nat
  | .null => 204
  | .undef => 204
  | _ => 200

/-- The write performed at finalization: null ends the response with an empty
body, undefined warns and then ends with an empty body, anything else writes
the JSON body. -/
def finalWriteEvents (value : JsonV) (statusCode : Nat) : List Ev :=
  match value with
  | .null => [Ev.evWrite statusCode none]
  | .undef => [Ev.evWarnUndefined, Ev.evWrite statusCode none]
  | v => [Ev.evWrite statusCode (some v)]

/-- Outcome of the route handler function proper: either it completed, or it
called next(err) (directly or through the final error guard). -/
inductive HOut where
  | done
  | nexted (e : ErrV)

/-- Finalization stage of the dispatcher, entered once the response has been
validated: if headers were already sent, return without writing anything and
without emitting any further event; otherwise resolve the status code (an
explicit setStatus wins over the fallback), write the response and emit
`:afterResponse` carrying the final payload, the request, the status code and
a timestamp taken after the write. -/
def coreFinalize (t4 : List Ev) (value : JsonV) (req1 : Req) (res1 : ResState) :
    List Ev × HOut × ResState :=
  if res1.headersSent then (t4, .done, res1)
  else
    let statusCode := res1.customStatus.getD (fallbackStatusCode value)
    let t5 := t4 ++ finalWriteEvents value statusCode
    (t5 ++ [Ev.evEmitAfterResponse value req1 statusCode t5.length], .done,
      { headersSent := true, customStatus := res1.customStatus })

/-- The dispatcher stage entered once params, query and payload have all been
validated: decode cookies, build the request, run the plugin pipeline, emit
`:request`, run the handler, validate the response (wrapping a failure as an
HttpError 500), then finalize. -/
def coreAfterValidation (plugins : List Plugin) (route : RouteM)
    (isSealed : String → Bool) (unsealF : String → Option String)
    (requestId : Nat) (raw : RawReq) (res0 : ResState)
    (paramsVal queryVal payloadVal : JsonV) : List Ev × HOut × ResState :=
  let req := builtReq route isSealed unsealF requestId raw paramsVal queryVal payloadVal
  let pr := runPlugins plugins req res0
  let t2 := valTrace route raw ++ pr.1 ++ [Ev.evEmitRequest, Ev.evHandler]
  let h := route.handler pr.2.1 pr.2.2
  match h.1 with
  | .error e => (t2, .nexted e, h.2)
  | .ok originalResult =>
    let rv := runVal route.validResponse Slot.response originalResult
    match rv.2 with
    | .error e => (t2 ++ rv.1, .nexted (responseErrorWrap e), h.2)
    | .ok value => coreFinalize (t2 ++ rv.1) value pr.2.1 h.2

/-- The async express handler produced by routeToExpressHandler (later
variant): validate params, query and payload in that order, short-circuiting
to next(HttpError 400) on the first failure; then proceed to
`coreAfterValidation`. -/
def routeHandlerCore (plugins : List Plugin) (route : RouteM)
    (isSealed : String → Bool) (unsealF : String → Option String)
    (requestId : Nat) (raw : RawReq) (res0 : ResState) :
    List Ev × HOut × ResState :=
  let pv := runVal route.validParams Slot.params raw.params
  match pv.2 with
  | .error e => (pv.1, .nexted (.httpErrorE 400 "BadRequest" e), res0)
  | .ok paramsVal =>
    let qv := runVal route.validQuery Slot.query raw.query
    match qv.2 with
    | .error e => (pv.1 ++ qv.1, .nexted (.httpErrorE 400 "BadRequest" e), res0)
    | .ok queryVal =>
      let bv := runVal route.validPayload Slot.payload raw.payload
      match bv.2 with
      | .error e => (pv.1 ++ qv.1 ++ bv.1, .nexted (.httpErrorE 400 "BadRequest" e), res0)
      | .ok payloadVal =>
        coreAfterValidation plugins route isSealed unsealF requestId raw res0
          paramsVal queryVal payloadVal

/-- The full dispatch of one request: the route handler, with next(err)
routed into the error middleware (as Express does for the router built by
initRouter). -/
def dispatch (plugins : List Plugin) (route : RouteM)
    (isSealed : String → Bool) (unsealF : String → Option String)
    (requestId : Nat) (raw : RawReq) (res0 : ResState) : List Ev × ResState :=
  let c := routeHandlerCore plugins route isSealed unsealF requestId raw res0
  match c.2.1 with
  | .done => (c.1, c.2.2)
  | .nexted e =>
    let mw := errorMiddleware c.2.2 e
    (c.1 ++ mw.1, mw.2)

/-- Whether a trace contains a `:response` emission. -/
def hasResponseEvent : List Ev → Bool
  | [] => false
  | Ev.evEmitResponse _ :: _ => true
  | _ :: t => hasResponseEvent t

/-- Whether a trace contains an `:afterResponse` emission. -/
def hasAfterResponseEvent : List Ev → Bool
  | [] => false
  | Ev.evEmitAfterResponse _ _ _ _ :: _ => true
  | _ :: t => hasAfterResponseEvent t

/-- Whether a trace contains a response write. -/
def hasWriteEvent : List Ev → Bool
  | [] => false
  | Ev.evWrite _ _ :: _ => true
  | _ :: t => hasWriteEvent t

theorem runVal_mem {v : Option (JsonV → Except ErrV JsonV)} {s : Slot} {x : JsonV} {e : Ev}
    (he : e ∈ (runVal v s x).1) : e = Ev.evValidate s := by
  cases v with
  | none => cases he
  | some f => simpa [runVal] using he

theorem core_success (plugins : List Plugin) (route : RouteM)
    (isSealed : String → Bool) (unsealF : String → Option String)
    (rid : Nat) (raw : RawReq) (res0 : ResState) (pval qval bval : JsonV)
    (hp : (runVal route.validParams Slot.params raw.params).2 = .ok pval)
    (hq : (runVal route.validQuery Slot.query raw.query).2 = .ok qval)
    (hb : (runVal route.validPayload Slot.payload raw.payload).2 = .ok bval) :
    routeHandlerCore plugins route isSealed unsealF rid raw res0 =
      coreAfterValidation plugins route isSealed unsealF rid raw res0 pval qval bval := by
  simp only [routeHandlerCore]
  rw [hp, hq, hb]

/-- C5: params, query and payload are validated in that order; the first
failure short-circuits the remaining validations and the handler, and
produces a 400 response through the error middleware whose body embeds the
thrown validation error (and hence its structured details).  Each conjunct
covers one failing slot: the trace is exactly the validations that ran
followed by the `:error` emission and the 400 write; no later validation
event and no handler invocation appears. -/
theorem c5_first_validation_failure_short_circuits (plugins : List Plugin) (route : RouteM)
    (isSealed : String → Bool) (unsealF : String → Option String)
    (rid : Nat) (raw : RawReq) (res0 : ResState) (e : ErrV)
    (hres : res0.headersSent = false) :
    (∀ f, route.validParams = some f → f raw.params = .error e →
      dispatch plugins route isSealed unsealF rid raw res0 =
        ([Ev.evValidate Slot.params,
          Ev.evEmitError (.httpErrorE 400 "BadRequest" e),
          Ev.evWrite 400 (some (.obj [("name", .str "HttpError"), ("message", .str "BadRequest"),
            ("body", errToJson e)]))],
         { headersSent := true, customStatus := res0.customStatus }) ∧
        Ev.evValidate Slot.query ∉ (dispatch plugins route isSealed unsealF rid raw res0).1 ∧
        Ev.evValidate Slot.payload ∉ (dispatch plugins route isSealed unsealF rid raw res0).1 ∧
        Ev.evHandler ∉ (dispatch plugins route isSealed unsealF rid raw res0).1) ∧
    (∀ pval f, (runVal route.validParams Slot.params raw.params).2 = .ok pval →
      route.validQuery = some f → f raw.query = .error e →
      dispatch plugins route isSealed unsealF rid raw res0 =
        ((runVal route.validParams Slot.params raw.params).1 ++
          [Ev.evValidate Slot.query,
           Ev.evEmitError (.httpErrorE 400 "BadRequest" e),
           Ev.evWrite 400 (some (.obj [("name", .str "HttpError"), ("message", .str "BadRequest"),
             ("body", errToJson e)]))],
         { headersSent := true, customStatus := res0.customStatus }) ∧
        Ev.evValidate Slot.payload ∉ (dispatch plugins route isSealed unsealF rid raw res0).1 ∧
        Ev.evHandler ∉ (dispatch plugins route isSealed unsealF rid raw res0).1) ∧
    (∀ pval qval f, (runVal route.validParams Slot.params raw.params).2 = .ok pval →
      (runVal route.validQuery Slot.query raw.query).2 = .ok qval →
      route.validPayload = some f → f raw.payload = .error e →
      dispatch plugins route isSealed unsealF rid raw res0 =
        ((runVal route.validParams Slot.params raw.params).1 ++
          (runVal route.validQuery Slot.query raw.query).1 ++
          [Ev.evValidate Slot.payload,
           Ev.evEmitError (.httpErrorE 400 "BadRequest" e),
           Ev.evWrite 400 (some (.obj [("name", .str "HttpError"), ("message", .str "BadRequest"),
             ("body", errToJson e)]))],
         { headersSent := true, customStatus := res0.customStatus }) ∧
        Ev.evHandler ∉ (dispatch plugins route isSealed unsealF rid raw res0).1) := by
  refine ⟨?_, ?_, ?_⟩
  · intro f hvp hf
    have htr : dispatch plugins route isSealed unsealF rid raw res0 =
        ([Ev.evValidate Slot.params,
          Ev.evEmitError (.httpErrorE 400 "BadRequest" e),
          Ev.evWrite 400 (some (.obj [("name", .str "HttpError"), ("message", .str "BadRequest"),
            ("body", errToJson e)]))],
         { headersSent := true, customStatus := res0.customStatus }) := by
      simp only [dispatch, routeHandlerCore, runVal, hvp, hf, errorMiddleware, hres, errWriteStatus, errWriteBody]
      simp
    refine ⟨htr, ?_, ?_, ?_⟩ <;> rw [htr] <;> simp
  · intro pval f hp hvq hf
    have htr : dispatch plugins route isSealed unsealF rid raw res0 =
        ((runVal route.validParams Slot.params raw.params).1 ++
          [Ev.evValidate Slot.query,
           Ev.evEmitError (.httpErrorE 400 "BadRequest" e),
           Ev.evWrite 400 (some (.obj [("name", .str "HttpError"), ("message", .str "BadRequest"),
             ("body", errToJson e)]))],
         { headersSent := true, customStatus := res0.customStatus }) := by
      simp only [dispatch, routeHandlerCore, hp]
      simp only [runVal, hvq, hf, errorMiddleware, hres, errWriteStatus, errWriteBody]
      simp
    refine ⟨htr, ?_, ?_⟩ <;> rw [htr] <;> intro hmem <;>
      rcases List.mem_append.mp hmem with h | h
    · exact absurd (runVal_mem h) (by simp)
    · simp at h
    · exact absurd (runVal_mem h) (by simp)
    · simp at h
  · intro pval qval f hp hq hvb hf
    have htr : dispatch plugins route isSealed unsealF rid raw res0 =
        ((runVal route.validParams Slot.params raw.params).1 ++
          (runVal route.validQuery Slot.query raw.query).1 ++
          [Ev.evValidate Slot.payload,
           Ev.evEmitError (.httpErrorE 400 "BadRequest" e),
           Ev.evWrite 400 (some (.obj [("name", .str "HttpError"), ("message", .str "BadRequest"),
             ("body", errToJson e)]))],
         { headersSent := true, customStatus := res0.customStatus }) := by
      simp only [dispatch, routeHandlerCore, hp, hq]
      simp only [runVal, hvb, hf, errorMiddleware, hres, errWriteStatus, errWriteBody]
      simp
    refine ⟨htr, ?_⟩
    rw [htr]
    intro hmem
    rcases List.mem_append.mp hmem with h | h
    · rcases List.mem_append.mp h with h | h
      · exact absurd (runVal_mem h) (by simp)
      · exact absurd (runVal_mem h) (by simp)
    · simp at h

/-- C5 witness: a concrete route whose params validator rejects; the request
yields exactly the params validation, the `:error` emission and the 400
write, and the handler is never invoked. -/
theorem c5_witness :
    dispatch []
      { path := "/w",
        validParams := some (fun _ => .error (.validationError "Invalid type" (.str "id"))),
        validQuery := none, validPayload := none, validResponse := none,
        handler := fun _ r => (.ok .null, r) }
      (fun _ => false) (fun _ => none) 0
      { params := .str "abc", query := .null, payload := .null, cookies := [] }
      { headersSent := false, customStatus := none } =
      ([Ev.evValidate Slot.params,
        Ev.evEmitError (.httpErrorE 400 "BadRequest" (.validationError "Invalid type" (.str "id"))),
        Ev.evWrite 400 (some (.obj [("name", .str "HttpError"), ("message", .str "BadRequest"),
          ("body", errToJson (.validationError "Invalid type" (.str "id")))]))],
       { headersSent := true, customStatus := none }) ∧
    Ev.evHandler ∉
      (dispatch []
        { path := "/w",
          validParams := some (fun _ => .error (.validationError "Invalid type" (.str "id"))),
          validQuery := none, validPayload := none, validResponse := none,
          handler := fun _ r => (.ok .null, r) }
        (fun _ => false) (fun _ => none) 0
        { params := .str "abc", query := .null, payload := .null, cookies := [] }
        { headersSent := false, customStatus := none }).1 :=
  ⟨((c5_first_validation_failure_short_circuits []
      { path := "/w",
        validParams := some (fun _ => .error (.validationError "Invalid type" (.str "id"))),
        validQuery := none, validPayload := none, validResponse := none,
        handler := fun _ r => (.ok .null, r) }
      (fun _ => false) (fun _ => none) 0
      { params := .str "abc", query := .null, payload := .null, cookies := [] }
      { headersSent := false, customStatus := none }
      (.validationError "Invalid type" (.str "id")) rfl).1 _ rfl rfl).1,
    ((c5_first_validation_failure_short_circuits []
      { path := "/w",
        validParams := some (fun _ => .error (.validationError "Invalid type" (.str "id"))),
        validQuery := none, validPayload := none, validResponse := none,
        handler := fun _ r => (.ok .null, r) }
      (fun _ => false) (fun _ => none) 0
      { params := .str "abc", query := .null, payload := .null, cookies := [] }
      { headersSent := false, customStatus := none }
      (.validationError "Invalid type" (.str "id")) rfl).1 _ rfl rfl).2.2.2⟩

theorem runPlugins_mem :
    ∀ (ps : List Plugin) (req : Req) (res : ResState) {e : Ev},
      e ∈ (runPlugins ps req res).1 → ∃ nm, e = Ev.evPluginRun nm := by
  intro ps
  induction ps with
  | nil => intro req res e he; cases he
  | cons p ps ih =>
    intro req res e he
    simp only [runPlugins] at he
    cases hreq : p.request? with
    | none =>
      rw [hreq] at he
      exact ih _ _ he
    | some hook =>
      rw [hreq] at he
      simp only [List.mem_cons] at he
      rcases he with h | h
      · exact ⟨p.name, h⟩
      · exact ih _ _ h

theorem valTrace_mem {route : RouteM} {raw : RawReq} {e : Ev}
    (he : e ∈ valTrace route raw) : ∃ s, e = Ev.evValidate s := by
  simp only [valTrace] at he
  rcases List.mem_append.mp he with h | h
  · rcases List.mem_append.mp h with h | h
    · exact ⟨_, runVal_mem h⟩
    · exact ⟨_, runVal_mem h⟩
  · exact ⟨_, runVal_mem h⟩

theorem responseErrorWrap_status (e : ErrV) : errWriteStatus (responseErrorWrap e) = 500 := by
  cases e <;> rfl

theorem responseErrorWrap_errStatus (e : ErrV) :
    errStatusCode (responseErrorWrap e) = some 500 := by
  cases e <;> rfl

/-- C2: a response-validation failure is forwarded as an HttpError with
status 500 InternalServerError — also when the underlying failure is a
ValidationError (whose message and details are preserved) — and the error
middleware therefore writes a 500 response; no 400 write can occur on this
request (every write in the trace carries status 500). -/
theorem c2_response_validation_failure_maps_to_500 (plugins : List Plugin) (route : RouteM)
    (isSealed : String → Bool) (unsealF : String → Option String)
    (rid : Nat) (raw : RawReq) (res0 : ResState)
    (pval qval bval orig : JsonV) (tp : List Ev) (req1 : Req) (res1 res2 : ResState)
    (fr : JsonV → Except ErrV JsonV) (e : ErrV)
    (hp : (runVal route.validParams Slot.params raw.params).2 = .ok pval)
    (hq : (runVal route.validQuery Slot.query raw.query).2 = .ok qval)
    (hb : (runVal route.validPayload Slot.payload raw.payload).2 = .ok bval)
    (hpr : runPlugins plugins (builtReq route isSealed unsealF rid raw pval qval bval) res0 =
      (tp, req1, res1))
    (hh : route.handler req1 res1 = (.ok orig, res2))
    (hvr : route.validResponse = some fr)
    (hfr : fr orig = .error e)
    (hhs : res2.headersSent = false) :
    dispatch plugins route isSealed unsealF rid raw res0 =
      (valTrace route raw ++ tp ++
        [Ev.evEmitRequest, Ev.evHandler, Ev.evValidate Slot.response,
         Ev.evEmitError (responseErrorWrap e),
         Ev.evWrite 500 (some (errWriteBody (responseErrorWrap e)))],
       { headersSent := true, customStatus := res2.customStatus }) ∧
    errStatusCode (responseErrorWrap e) = some 500 ∧
    (∀ s b, Ev.evWrite s b ∈ (dispatch plugins route isSealed unsealF rid raw res0).1 →
      s = 500) := by
  have hcore := core_success plugins route isSealed unsealF rid raw res0 pval qval bval hp hq hb
  have htr : dispatch plugins route isSealed unsealF rid raw res0 =
      (valTrace route raw ++ tp ++
        [Ev.evEmitRequest, Ev.evHandler, Ev.evValidate Slot.response,
         Ev.evEmitError (responseErrorWrap e),
         Ev.evWrite 500 (some (errWriteBody (responseErrorWrap e)))],
       { headersSent := true, customStatus := res2.customStatus }) := by
    simp only [dispatch, hcore, coreAfterValidation, hpr, hh]
    simp only [runVal, hvr, hfr, errorMiddleware, hhs]
    rw [responseErrorWrap_status]
    simp
  refine ⟨htr, responseErrorWrap_errStatus e, ?_⟩
  intro s b hmem
  rw [htr] at hmem
  rcases List.mem_append.mp hmem with h | h
  · rcases List.mem_append.mp h with h | h
    · obtain ⟨s', hs'⟩ := valTrace_mem h
      simp at hs'
    · have h' : Ev.evWrite s b ∈ (runPlugins plugins
          (builtReq route isSealed unsealF rid raw pval qval bval) res0).1 := by
        rw [hpr]
        exact h
      obtain ⟨nm, hnm⟩ := runPlugins_mem _ _ _ h'
      simp at hnm
  · simp at h
    exact h.1

/-- C2 witness: a concrete route whose response validator throws a
ValidationError; the forwarded error is an HttpError 500 and the write
carries status 500 (not 400). -/
theorem c2_witness :
    dispatch []
      { path := "/w", validParams := none, validQuery := none, validPayload := none,
        validResponse := some (fun _ => .error (.validationError "bad response" .null)),
        handler := fun _ r => (.ok (.num 7), r) }
      (fun _ => false) (fun _ => none) 0
      { params := .null, query := .null, payload := .null, cookies := [] }
      { headersSent := false, customStatus := none } =
      ([Ev.evEmitRequest, Ev.evHandler, Ev.evValidate Slot.response,
        Ev.evEmitError (.httpErrorJ 500 "bad response" .null),
        Ev.evWrite 500 (some (.obj [("name", .str "HttpError"),
          ("message", .str "bad response"), ("body", .null)]))],
       { headersSent := true, customStatus := none }) ∧
    errStatusCode (responseErrorWrap (.validationError "bad response" .null)) = some 500 :=
  ⟨(c2_response_validation_failure_maps_to_500 []
      { path := "/w", validParams := none, validQuery := none, validPayload := none,
        validResponse := some (fun _ => .error (.validationError "bad response" .null)),
        handler := fun _ r => (.ok (.num 7), r) }
      (fun _ => false) (fun _ => none) 0
      { params := .null, query := .null, payload := .null, cookies := [] }
      { headersSent := false, customStatus := none }
      .null .null .null (.num 7) [] _ _ _ _ (.validationError "bad response" .null)
      rfl rfl rfl rfl rfl rfl rfl rfl).1,
    (c2_response_validation_failure_maps_to_500 []
      { path := "/w", validParams := none, validQuery := none, validPayload := none,
        validResponse := some (fun _ => .error (.validationError "bad response" .null)),
        handler := fun _ r => (.ok (.num 7), r) }
      (fun _ => false) (fun _ => none) 0
      { params := .null, query := .null, payload := .null, cookies := [] }
      { headersSent := false, customStatus := none }
      .null .null .null (.num 7) [] _ _ _ _ (.validationError "bad response" .null)
      rfl rfl rfl rfl rfl rfl rfl rfl).2.1⟩

/-- C6: status determination at finalization.  The trace equality shows the
dispatcher writes exactly `finalWriteEvents value st` where
`st = res.customStatus.getD (fallbackStatusCode value)`; the remaining
conjuncts spell out that an explicit setStatus value wins, that otherwise
null and undefined fall back to 204 NoContent and anything else to 200 OK,
and that null produces an empty write, undefined produces the diagnostic
warning followed by the same empty write, and any other value a JSON body
write. -/
theorem c6_status_determination (plugins : List Plugin) (route : RouteM)
    (isSealed : String → Bool) (unsealF : String → Option String)
    (rid : Nat) (raw : RawReq) (res0 : ResState)
    (pval qval bval orig value : JsonV) (tp : List Ev) (req1 : Req) (res1 res2 : ResState)
    (hp : (runVal route.validParams Slot.params raw.params).2 = .ok pval)
    (hq : (runVal route.validQuery Slot.query raw.query).2 = .ok qval)
    (hb : (runVal route.validPayload Slot.payload raw.payload).2 = .ok bval)
    (hpr : runPlugins plugins (builtReq route isSealed unsealF rid raw pval qval bval) res0 =
      (tp, req1, res1))
    (hh : route.handler req1 res1 = (.ok orig, res2))
    (hvres : (runVal route.validResponse Slot.response orig).2 = .ok value)
    (hhs : res2.headersSent = false) :
    (∃ ts, dispatch plugins route isSealed unsealF rid raw res0 =
      (valTrace route raw ++ tp ++ [Ev.evEmitRequest, Ev.evHandler] ++
        (runVal route.validResponse Slot.response orig).1 ++
        finalWriteEvents value (res2.customStatus.getD (fallbackStatusCode value)) ++
        [Ev.evEmitAfterResponse value req1 (res2.customStatus.getD (fallbackStatusCode value)) ts],
       { headersSent := true, customStatus := res2.customStatus })) ∧
    (∀ s, res2.customStatus = some s →
      res2.customStatus.getD (fallbackStatusCode value) = s) ∧
    (res2.customStatus = none →
      res2.customStatus.getD (fallbackStatusCode value) = fallbackStatusCode value) ∧
    (fallbackStatusCode .null = 204 ∧ fallbackStatusCode .undef = 204) ∧
    (value ≠ .null → value ≠ .undef → fallbackStatusCode value = 200) ∧
    (∀ st, finalWriteEvents .null st = [Ev.evWrite st none]) ∧
    (∀ st, finalWriteEvents .undef st = [Ev.evWarnUndefined, Ev.evWrite st none]) ∧
    (value ≠ .null → value ≠ .undef →
      ∀ st, finalWriteEvents value st = [Ev.evWrite st (some value)]) := by
  have hcore := core_success plugins route isSealed unsealF rid raw res0 pval qval bval hp hq hb
  refine ⟨⟨(valTrace route raw ++ tp ++ [Ev.evEmitRequest, Ev.evHandler] ++
      (runVal route.validResponse Slot.response orig).1 ++
      finalWriteEvents value (res2.customStatus.getD (fallbackStatusCode value))).length, ?_⟩,
    ?_, ?_, ⟨rfl, rfl⟩, ?_, fun _ => rfl, fun _ => rfl, ?_⟩
  · simp only [dispatch, hcore, coreAfterValidation, hpr, hh, hvres, coreFinalize, hhs]
    simp
  · intro s hs
    rw [hs]
    rfl
  · intro hs
    rw [hs]
    rfl
  · intro h0 h1
    cases value with
    | null => exact absurd rfl h0
    | undef => exact absurd rfl h1
    | bool b => rfl
    | num n => rfl
    | str s => rfl
    | arr l => rfl
    | obj f => rfl
  · intro h0 h1 st
    cases value with
    | null => exact absurd rfl h0
    | undef => exact absurd rfl h1
    | bool b => rfl
    | num n => rfl
    | str s => rfl
    | arr l => rfl
    | obj f => rfl

/-- C6 witness: a handler that returns null after calling setStatus 418; the
explicit status wins and the write is empty. -/
theorem c6_witness :
    (∃ ts, dispatch []
      { path := "/w", validParams := none, validQuery := none, validPayload := none,
        validResponse := none,
        handler := fun _ r => (.ok .null, setStatus 418 r) }
      (fun _ => false) (fun _ => none) 0
      { params := .null, query := .null, payload := .null, cookies := [] }
      { headersSent := false, customStatus := none } =
      ([Ev.evEmitRequest, Ev.evHandler, Ev.evWrite 418 none,
        Ev.evEmitAfterResponse .null
          (builtReq
            { path := "/w", validParams := none, validQuery := none, validPayload := none,
              validResponse := none,
              handler := fun _ r => (.ok .null, setStatus 418 r) }
            (fun _ => false) (fun _ => none) 0
            { params := .null, query := .null, payload := .null, cookies := [] }
            .null .null .null) 418 ts],
       { headersSent := true, customStatus := some 418 })) ∧
    (∀ s, (some 418 : Option Nat) = some s → (418 : Nat) = s) :=
  ⟨(c6_status_determination []
      { path := "/w", validParams := none, validQuery := none, validPayload := none,
        validResponse := none,
        handler := fun _ r => (.ok .null, setStatus 418 r) }
      (fun _ => false) (fun _ => none) 0
      { params := .null, query := .null, payload := .null, cookies := [] }
      { headersSent := false, customStatus := none }
      .null .null .null .null .null [] _ _ _
      rfl rfl rfl rfl rfl rfl rfl).1,
    fun s hs => (c6_status_determination []
      { path := "/w", validParams := none, validQuery := none, validPayload := none,
        validResponse := none,
        handler := fun _ r => (.ok .null, setStatus 418 r) }
      (fun _ => false) (fun _ => none) 0
      { params := .null, query := .null, payload := .null, cookies := [] }
      { headersSent := false, customStatus := none }
      .null .null .null .null .null [] _ _ _
      rfl rfl rfl rfl rfl rfl rfl).2.1 s hs⟩

theorem finalWriteEvents_mem {v : JsonV} {st : Nat} {e : Ev}
    (he : e ∈ finalWriteEvents v st) :
    e = Ev.evWarnUndefined ∨ ∃ b, e = Ev.evWrite st b := by
  cases v <;> simp [finalWriteEvents] at he <;> first
    | (exact Or.inr ⟨_, he⟩)
    | (rcases he with h | h
       · exact Or.inl h
       · exact Or.inr ⟨_, h⟩)

/-- C7 counterexample: a successfully handled request (the write and the
`:afterResponse` emission both happen) for which no `:response` event is ever
emitted — the later variant of routeToExpressHandler does not emit
`:response` at all, so the claimed ":response, then write, then
:afterResponse" sequence does not occur. -/
theorem c7_counterexample :
    (dispatch []
      { path := "/p", validParams := none, validQuery := none, validPayload := none,
        validResponse := none, handler := fun _ r => (.ok (.num 1), r) }
      (fun _ => false) (fun _ => none) 0
      { params := .null, query := .null, payload := .null, cookies := [] }
      { headersSent := false, customStatus := none }).1 =
      [Ev.evEmitRequest, Ev.evHandler, Ev.evWrite 200 (some (.num 1)),
        Ev.evEmitAfterResponse (.num 1)
          (builtReq
            { path := "/p", validParams := none, validQuery := none, validPayload := none,
              validResponse := none, handler := fun _ r => (.ok (.num 1), r) }
            (fun _ => false) (fun _ => none) 0
            { params := .null, query := .null, payload := .null, cookies := [] }
            .null .null .null) 200 3] ∧
    hasResponseEvent (dispatch []
      { path := "/p", validParams := none, validQuery := none, validPayload := none,
        validResponse := none, handler := fun _ r => (.ok (.num 1), r) }
      (fun _ => false) (fun _ => none) 0
      { params := .null, query := .null, payload := .null, cookies := [] }
      { headersSent := false, customStatus := none }).1 = false :=
  ⟨rfl, rfl⟩

/-- C7 amended: for every successfully handled request the dispatcher writes
the response and then emits `:afterResponse` carrying the final payload, the
request, the status code, and a timestamp captured after the write (the
recorded clock value exceeds the write's position); no `:response` event is
emitted. -/
theorem c7_write_then_after_response (plugins : List Plugin) (route : RouteM)
    (isSealed : String → Bool) (unsealF : String → Option String)
    (rid : Nat) (raw : RawReq) (res0 : ResState)
    (pval qval bval orig value : JsonV) (tp : List Ev) (req1 : Req) (res1 res2 : ResState)
    (hp : (runVal route.validParams Slot.params raw.params).2 = .ok pval)
    (hq : (runVal route.validQuery Slot.query raw.query).2 = .ok qval)
    (hb : (runVal route.validPayload Slot.payload raw.payload).2 = .ok bval)
    (hpr : runPlugins plugins (builtReq route isSealed unsealF rid raw pval qval bval) res0 =
      (tp, req1, res1))
    (hh : route.handler req1 res1 = (.ok orig, res2))
    (hvres : (runVal route.validResponse Slot.response orig).2 = .ok value)
    (hhs : res2.headersSent = false) :
    (∃ tpre b, (dispatch plugins route isSealed unsealF rid raw res0).1 =
        tpre ++ [Ev.evWrite (res2.customStatus.getD (fallbackStatusCode value)) b,
          Ev.evEmitAfterResponse value req1 (res2.customStatus.getD (fallbackStatusCode value))
            (tpre.length + 1)]) ∧
    (∀ v, Ev.evEmitResponse v ∉ (dispatch plugins route isSealed unsealF rid raw res0).1) := by
  have hcore := core_success plugins route isSealed unsealF rid raw res0 pval qval bval hp hq hb
  have htr : dispatch plugins route isSealed unsealF rid raw res0 =
      (valTrace route raw ++ tp ++ [Ev.evEmitRequest, Ev.evHandler] ++
        (runVal route.validResponse Slot.response orig).1 ++
        finalWriteEvents value (res2.customStatus.getD (fallbackStatusCode value)) ++
        [Ev.evEmitAfterResponse value req1 (res2.customStatus.getD (fallbackStatusCode value))
          ((valTrace route raw ++ tp ++ [Ev.evEmitRequest, Ev.evHandler] ++
            (runVal route.validResponse Slot.response orig).1 ++
            finalWriteEvents value (res2.customStatus.getD (fallbackStatusCode value))).length)],
       { headersSent := true, customStatus := res2.customStatus }) := by
    simp only [dispatch, hcore, coreAfterValidation, hpr, hh, hvres, coreFinalize, hhs]
    simp
  constructor
  · cases value with
    | null =>
      exact ⟨valTrace route raw ++ tp ++ [Ev.evEmitRequest, Ev.evHandler] ++
        (runVal route.validResponse Slot.response orig).1, none,
        by rw [htr]; simp [finalWriteEvents]; omega⟩
    | undef =>
      exact ⟨valTrace route raw ++ tp ++ [Ev.evEmitRequest, Ev.evHandler] ++
        (runVal route.validResponse Slot.response orig).1 ++ [Ev.evWarnUndefined], none,
        by rw [htr]; simp [finalWriteEvents]; omega⟩
    | bool b =>
      exact ⟨valTrace route raw ++ tp ++ [Ev.evEmitRequest, Ev.evHandler] ++
        (runVal route.validResponse Slot.response orig).1, some (.bool b),
        by rw [htr]; simp [finalWriteEvents]; omega⟩
    | num n =>
      exact ⟨valTrace route raw ++ tp ++ [Ev.evEmitRequest, Ev.evHandler] ++
        (runVal route.validResponse Slot.response orig).1, some (.num n),
        by rw [htr]; simp [finalWriteEvents]; omega⟩
    | str s =>
      exact ⟨valTrace route raw ++ tp ++ [Ev.evEmitRequest, Ev.evHandler] ++
        (runVal route.validResponse Slot.response orig).1, some (.str s),
        by rw [htr]; simp [finalWriteEvents]; omega⟩
    | arr l =>
      exact ⟨valTrace route raw ++ tp ++ [Ev.evEmitRequest, Ev.evHandler] ++
        (runVal route.validResponse Slot.response orig).1, some (.arr l),
        by rw [htr]; simp [finalWriteEvents]; omega⟩
    | obj f =>
      exact ⟨valTrace route raw ++ tp ++ [Ev.evEmitRequest, Ev.evHandler] ++
        (runVal route.validResponse Slot.response orig).1, some (.obj f),
        by rw [htr]; simp [finalWriteEvents]; omega⟩
  · intro v hmem
    rw [htr] at hmem
    simp only [List.mem_append] at hmem
    rcases hmem with ((((h | h) | h) | h) | h) | h
    · obtain ⟨s', hs'⟩ := valTrace_mem h
      simp at hs'
    · have h' : Ev.evEmitResponse v ∈ (runPlugins plugins
          (builtReq route isSealed unsealF rid raw pval qval bval) res0).1 := by
        rw [hpr]; exact h
      obtain ⟨nm, hnm⟩ := runPlugins_mem _ _ _ h'
      simp at hnm
    · simp at h
    · exact absurd (runVal_mem h) (by simp)
    · rcases finalWriteEvents_mem h with h | ⟨b, h⟩ <;> simp at h
    · simp at h

/-- C7 witness: the amended statement at a concrete successful request. -/
theorem c7_witness :
    (∃ tpre b, (dispatch []
        { path := "/p", validParams := none, validQuery := none, validPayload := none,
          validResponse := none, handler := fun _ r => (.ok (.num 2), r) }
        (fun _ => false) (fun _ => none) 0
        { params := .null, query := .null, payload := .null, cookies := [] }
        { headersSent := false, customStatus := none }).1 =
        tpre ++ [Ev.evWrite 200 b,
          Ev.evEmitAfterResponse (.num 2)
            (builtReq
              { path := "/p", validParams := none, validQuery := none, validPayload := none,
                validResponse := none, handler := fun _ r => (.ok (.num 2), r) }
              (fun _ => false) (fun _ => none) 0
              { params := .null, query := .null, payload := .null, cookies := [] }
              .null .null .null) 200 (tpre.length + 1)]) ∧
    (∀ v, Ev.evEmitResponse v ∉ (dispatch []
        { path := "/p", validParams := none, validQuery := none, validPayload := none,
          validResponse := none, handler := fun _ r => (.ok (.num 2), r) }
        (fun _ => false) (fun _ => none) 0
        { params := .null, query := .null, payload := .null, cookies := [] }
        { headersSent := false, customStatus := none }).1) :=
  c7_write_then_after_response []
    { path := "/p", validParams := none, validQuery := none, validPayload := none,
      validResponse := none, handler := fun _ r => (.ok (.num 2), r) }
    (fun _ => false) (fun _ => none) 0
    { params := .null, query := .null, payload := .null, cookies := [] }
    { headersSent := false, customStatus := none }
    .null .null .null (.num 2) (.num 2) [] _ _ _
    rfl rfl rfl rfl rfl rfl rfl

/-- C8 counterexample: a request whose handler has already sent the transport
response when finalization is reached.  The dispatcher returns immediately:
no write occurs, but no completion bookkeeping runs either — the
`:afterResponse` emission claimed to still happen is absent from the
trace. -/
theorem c8_counterexample :
    (dispatch []
      { path := "/p", validParams := none, validQuery := none, validPayload := none,
        validResponse := none,
        handler := fun _ r => (.ok (.num 1), { r with headersSent := true }) }
      (fun _ => false) (fun _ => none) 0
      { params := .null, query := .null, payload := .null, cookies := [] }
      { headersSent := false, customStatus := none }).1 =
      [Ev.evEmitRequest, Ev.evHandler] ∧
    hasWriteEvent (dispatch []
      { path := "/p", validParams := none, validQuery := none, validPayload := none,
        validResponse := none,
        handler := fun _ r => (.ok (.num 1), { r with headersSent := true }) }
      (fun _ => false) (fun _ => none) 0
      { params := .null, query := .null, payload := .null, cookies := [] }
      { headersSent := false, customStatus := none }).1 = false ∧
    hasAfterResponseEvent (dispatch []
      { path := "/p", validParams := none, validQuery := none, validPayload := none,
        validResponse := none,
        handler := fun _ r => (.ok (.num 1), { r with headersSent := true }) }
      (fun _ => false) (fun _ => none) 0
      { params := .null, query := .null, payload := .null, cookies := [] }
      { headersSent := false, customStatus := none }).1 = false :=
  ⟨rfl, rfl, rfl⟩

/-- C8 amended: when the transport response has already been sent at
finalization, the dispatcher skips the body and status writes and returns
immediately, also skipping the completion bookkeeping: the trace ends with
the response validation and contains neither a write nor an `:afterResponse`
emission. -/
theorem c8_headers_sent_skips_writes_and_bookkeeping (plugins : List Plugin) (route : RouteM)
    (isSealed : String → Bool) (unsealF : String → Option String)
    (rid : Nat) (raw : RawReq) (res0 : ResState)
    (pval qval bval orig value : JsonV) (tp : List Ev) (req1 : Req) (res1 res2 : ResState)
    (hp : (runVal route.validParams Slot.params raw.params).2 = .ok pval)
    (hq : (runVal route.validQuery Slot.query raw.query).2 = .ok qval)
    (hb : (runVal route.validPayload Slot.payload raw.payload).2 = .ok bval)
    (hpr : runPlugins plugins (builtReq route isSealed unsealF rid raw pval qval bval) res0 =
      (tp, req1, res1))
    (hh : route.handler req1 res1 = (.ok orig, res2))
    (hvres : (runVal route.validResponse Slot.response orig).2 = .ok value)
    (hhs : res2.headersSent = true) :
    dispatch plugins route isSealed unsealF rid raw res0 =
      (valTrace route raw ++ tp ++ [Ev.evEmitRequest, Ev.evHandler] ++
        (runVal route.validResponse Slot.response orig).1, res2) ∧
    (∀ s b, Ev.evWrite s b ∉ (dispatch plugins route isSealed unsealF rid raw res0).1) ∧
    (∀ p r s t, Ev.evEmitAfterResponse p r s t ∉
      (dispatch plugins route isSealed unsealF rid raw res0).1) := by
  have hcore := core_success plugins route isSealed unsealF rid raw res0 pval qval bval hp hq hb
  have htr : dispatch plugins route isSealed unsealF rid raw res0 =
      (valTrace route raw ++ tp ++ [Ev.evEmitRequest, Ev.evHandler] ++
        (runVal route.validResponse Slot.response orig).1, res2) := by
    simp only [dispatch, hcore, coreAfterValidation, hpr, hh, hvres, coreFinalize, hhs]
    simp
  refine ⟨htr, ?_, ?_⟩
  · intro s b hmem
    rw [htr] at hmem
    simp only [List.mem_append] at hmem
    rcases hmem with ((h | h) | h) | h
    · obtain ⟨s', hs'⟩ := valTrace_mem h
      simp at hs'
    · have h' : Ev.evWrite s b ∈ (runPlugins plugins
          (builtReq route isSealed unsealF rid raw pval qval bval) res0).1 := by
        rw [hpr]; exact h
      obtain ⟨nm, hnm⟩ := runPlugins_mem _ _ _ h'
      simp at hnm
    · simp at h
    · exact absurd (runVal_mem h) (by simp)
  · intro p r s t hmem
    rw [htr] at hmem
    simp only [List.mem_append] at hmem
    rcases hmem with ((h | h) | h) | h
    · obtain ⟨s', hs'⟩ := valTrace_mem h
      simp at hs'
    · have h' : Ev.evEmitAfterResponse p r s t ∈ (runPlugins plugins
          (builtReq route isSealed unsealF rid raw pval qval bval) res0).1 := by
        rw [hpr]; exact h
      obtain ⟨nm, hnm⟩ := runPlugins_mem _ _ _ h'
      simp at hnm
    · simp at h
    · exact absurd (runVal_mem h) (by simp)

/-- C8 witness: the amended statement at a concrete request whose handler
sends the headers itself. -/
theorem c8_witness :
    dispatch []
      { path := "/p", validParams := none, validQuery := none, validPayload := none,
        validResponse := none,
        handler := fun _ r => (.ok (.num 3), { r with headersSent := true }) }
      (fun _ => false) (fun _ => none) 0
      { params := .null, query := .null, payload := .null, cookies := [] }
      { headersSent := false, customStatus := none } =
      ([Ev.evEmitRequest, Ev.evHandler], { headersSent := true, customStatus := none }) ∧
    (∀ s b, Ev.evWrite s b ∉ (dispatch []
      { path := "/p", validParams := none, validQuery := none, validPayload := none,
        validResponse := none,
        handler := fun _ r => (.ok (.num 3), { r with headersSent := true }) }
      (fun _ => false) (fun _ => none) 0
      { params := .null, query := .null, payload := .null, cookies := [] }
      { headersSent := false, customStatus := none }).1) ∧
    (∀ p r s t, Ev.evEmitAfterResponse p r s t ∉ (dispatch []
      { path := "/p", validParams := none, validQuery := none, validPayload := none,
        validResponse := none,
        handler := fun _ r => (.ok (.num 3), { r with headersSent := true }) }
      (fun _ => false) (fun _ => none) 0
      { params := .null, query := .null, payload := .null, cookies := [] }
      { headersSent := false, customStatus := none }).1) :=
  c8_headers_sent_skips_writes_and_bookkeeping []
    { path := "/p", validParams := none, validQuery := none, validPayload := none,
      validResponse := none,
      handler := fun _ r => (.ok (.num 3), { r with headersSent := true }) }
    (fun _ => false) (fun _ => none) 0
    { params := .null, query := .null, payload := .null, cookies := [] }
    { headersSent := false, customStatus := none }
    .null .null .null (.num 3) (.num 3) [] _ _ _
    rfl rfl rfl rfl rfl rfl rfl

theorem runPlugins_cons_none (p : Plugin) (ps : List Plugin) (req : Req) (res : ResState)
    (hreq : p.request? = none) : runPlugins (p :: ps) req res = runPlugins ps req res := by
  simp only [runPlugins, hreq]

theorem runPlugins_cons_some (p : Plugin) (ps : List Plugin) (req : Req) (res : ResState)
    (hook : Req → ResState → JsonV × ResState) (hreq : p.request? = some hook) :
    runPlugins (p :: ps) req res =
      (Ev.evPluginRun p.name ::
        (runPlugins ps
          (if jsTruthy (hook req res).1 = true
            then { req with pluginsMeta := req.pluginsMeta ++ [(p.name, (hook req res).1)] }
            else req) (hook req res).2).1,
       (runPlugins ps
          (if jsTruthy (hook req res).1 = true
            then { req with pluginsMeta := req.pluginsMeta ++ [(p.name, (hook req res).1)] }
            else req) (hook req res).2).2) := by
  simp only [runPlugins, hreq]

theorem runPlugins_trace :
    ∀ (ps : List Plugin) (req : Req) (res : ResState),
      (runPlugins ps req res).1 =
        (ps.filter (fun p => p.request?.isSome)).map (fun p => Ev.evPluginRun p.name) := by
  intro ps
  induction ps with
  | nil => intro req res; rfl
  | cons p ps ih =>
    intro req res
    simp only [runPlugins]
    cases hreq : p.request? with
    | none => simp [List.filter_cons, hreq, ih]
    | some hook => simp [List.filter_cons, hreq, ih]

theorem runPlugins_foldl_aux :
    ∀ (ps : List Plugin) (t : List Ev) (req : Req) (res : ResState),
      ps.foldl runPluginsStep (t, req, res) =
        (t ++ (runPlugins ps req res).1, (runPlugins ps req res).2) := by
  intro ps
  induction ps with
  | nil => intro t req res; simp [runPlugins]
  | cons p ps ih =>
    intro t req res
    simp only [List.foldl_cons, runPluginsStep, runPlugins]
    cases hreq : p.request? with
    | none => exact ih t req res
    | some hook =>
      refine Eq.trans (ih (t ++ [Ev.evPluginRun p.name]) _ _) ?_
      simp

theorem runPlugins_foldl (ps : List Plugin) (req : Req) (res : ResState) :
    runPlugins ps req res = ps.foldl runPluginsStep ([], req, res) := by
  rw [runPlugins_foldl_aux]
  simp

theorem runPlugins_meta :
    ∀ (ps : List Plugin) (req : Req) (res : ResState),
      ∃ ks : List (String × JsonV),
        (runPlugins ps req res).2.1.pluginsMeta = req.pluginsMeta ++ ks ∧
        (ks.map Prod.fst).Sublist (ps.map Plugin.name) ∧
        (∀ e ∈ ks, jsTruthy e.2 = true ∧
          ∃ p, p ∈ ps ∧ p.name = e.1 ∧ p.request?.isSome = true) := by
  intro ps
  induction ps with
  | nil =>
    intro req res
    exact ⟨[], by simp [runPlugins], by simp, by simp⟩
  | cons p ps ih =>
    intro req res
    cases hreq : p.request? with
    | none =>
      rw [runPlugins_cons_none p ps req res hreq]
      obtain ⟨ks, h1, h2, h3⟩ := ih req res
      refine ⟨ks, h1, h2.cons _, fun e he => ⟨(h3 e he).1, ?_⟩⟩
      obtain ⟨p', hp', hn, hs⟩ := (h3 e he).2
      exact ⟨p', List.mem_cons_of_mem _ hp', hn, hs⟩
    | some hook =>
      rw [runPlugins_cons_some p ps req res hook hreq]
      by_cases ht : jsTruthy (hook req res).1 = true
      · rw [if_pos ht]
        obtain ⟨ks, h1, h2, h3⟩ := ih
          { req with pluginsMeta := req.pluginsMeta ++ [(p.name, (hook req res).1)] }
          (hook req res).2
        refine ⟨(p.name, (hook req res).1) :: ks, ?_, ?_, ?_⟩
        · simp only [] at h1
          rw [h1]
          simp
        · simpa using h2.cons₂ p.name
        · intro e he
          rcases List.mem_cons.mp he with h | h
          · subst h
            exact ⟨ht, ⟨p, List.mem_cons_self p ps, rfl, by rw [hreq]; rfl⟩⟩
          · obtain ⟨htr, p', hp', hn, hs⟩ := h3 e h
            exact ⟨htr, p', List.mem_cons_of_mem _ hp', hn, hs⟩
      · rw [if_neg ht]
        obtain ⟨ks, h1, h2, h3⟩ := ih req (hook req res).2
        refine ⟨ks, h1, h2.cons _, fun e he => ⟨(h3 e he).1, ?_⟩⟩
        obtain ⟨p', hp', hn, hs⟩ := (h3 e he).2
        exact ⟨p', List.mem_cons_of_mem _ hp', hn, hs⟩

/-- C3: the plugin pipeline runs each plugin's request hook strictly in
registration order (the pipeline equals the explicit ordered left fold of the
hook steps, each hook receiving the request and response state left by the
previous one, so a hook starts only after the previous one completed); a
plugin with no request hook is skipped without error (the trace is exactly
the hooked plugins, in order); and Request.plugins is extended by at most one
entry per plugin, keyed by the plugin's name, only when that plugin's hook
existed and returned a truthy (non-empty) metadata value — with distinct
plugin names each name is written at most once per request. -/
theorem c3_plugin_pipeline_sequential (ps : List Plugin) (req : Req) (res : ResState) :
    (runPlugins ps req res).1 =
      (ps.filter (fun p => p.request?.isSome)).map (fun p => Ev.evPluginRun p.name) ∧
    runPlugins ps req res = ps.foldl runPluginsStep ([], req, res) ∧
    (∃ ks, (runPlugins ps req res).2.1.pluginsMeta = req.pluginsMeta ++ ks ∧
      (ks.map Prod.fst).Sublist (ps.map Plugin.name) ∧
      (∀ e ∈ ks, jsTruthy e.2 = true ∧
        ∃ p, p ∈ ps ∧ p.name = e.1 ∧ p.request?.isSome = true)) ∧
    ((ps.map Plugin.name).Nodup → req.pluginsMeta = [] →
      ((runPlugins ps req res).2.1.pluginsMeta.map Prod.fst).Nodup) := by
  refine ⟨runPlugins_trace ps req res, runPlugins_foldl ps req res,
    runPlugins_meta ps req res, ?_⟩
  intro hnd hempty
  obtain ⟨ks, h1, h2, _⟩ := runPlugins_meta ps req res
  rw [h1, hempty]
  simpa using h2.nodup hnd

/-- C3 witness: three concrete plugins — "a" with a hook returning truthy
metadata, "skip" without a hook, "b" with a hook returning null — run in
order with "skip" skipped, and the resulting metadata keys are unique. -/
theorem c3_witness :
    (runPlugins
      [⟨"a", some (fun _ r => (JsonV.num 1, r))⟩, ⟨"skip", none⟩,
        ⟨"b", some (fun _ r => (JsonV.null, r))⟩]
      ⟨"/", .null, .null, .null, [], [], 0, 0⟩ ⟨false, none⟩).1 =
      [Ev.evPluginRun "a", Ev.evPluginRun "b"] ∧
    ((runPlugins
      [⟨"a", some (fun _ r => (JsonV.num 1, r))⟩, ⟨"skip", none⟩,
        ⟨"b", some (fun _ r => (JsonV.null, r))⟩]
      ⟨"/", .null, .null, .null, [], [], 0, 0⟩ ⟨false, none⟩).2.1.pluginsMeta.map
        Prod.fst).Nodup :=
  ⟨(c3_plugin_pipeline_sequential
      [⟨"a", some (fun _ r => (JsonV.num 1, r))⟩, ⟨"skip", none⟩,
        ⟨"b", some (fun _ r => (JsonV.null, r))⟩]
      ⟨"/", .null, .null, .null, [], [], 0, 0⟩ ⟨false, none⟩).1,
    (c3_plugin_pipeline_sequential
      [⟨"a", some (fun _ r => (JsonV.num 1, r))⟩, ⟨"skip", none⟩,
        ⟨"b", some (fun _ r => (JsonV.null, r))⟩]
      ⟨"/", .null, .null, .null, [], [], 0, 0⟩ ⟨false, none⟩).2.2.2 (by decide) rfl⟩

theorem dispatch_handler_mem (plugins : List Plugin) (route : RouteM)
    (isSealed : String → Bool) (unsealF : String → Option String)
    (rid : Nat) (raw : RawReq) (res0 : ResState) (pval qval bval : JsonV)
    (hp : (runVal route.validParams Slot.params raw.params).2 = .ok pval)
    (hq : (runVal route.validQuery Slot.query raw.query).2 = .ok qval)
    (hb : (runVal route.validPayload Slot.payload raw.payload).2 = .ok bval) :
    Ev.evHandler ∈ (dispatch plugins route isSealed unsealF rid raw res0).1 := by
  have hcore := core_success plugins route isSealed unsealF rid raw res0 pval qval bval hp hq hb
  have hmem : Ev.evHandler ∈ (routeHandlerCore plugins route isSealed unsealF rid raw res0).1 := by
    rw [hcore]
    simp only [coreAfterValidation]
    rcases hh : route.handler
        (runPlugins plugins (builtReq route isSealed unsealF rid raw pval qval bval) res0).2.1
        (runPlugins plugins (builtReq route isSealed unsealF rid raw pval qval bval) res0).2.2
      with ⟨ho, res2⟩
    cases ho with
    | error e => simp
    | ok orig =>
      rcases hrv : (runVal route.validResponse Slot.response orig).2 with e | value
      · simp [hrv]
      · simp only [hrv]
        simp only [coreFinalize]
        by_cases hhs : res2.headersSent
        · simp [hhs]
        · simp [hhs]
  rcases hc : routeHandlerCore plugins route isSealed unsealF rid raw res0 with ⟨t, ho, resx⟩
  rw [hc] at hmem
  simp only [dispatch, hc]
  cases ho with
  | done => simpa using hmem
  | nexted e => exact List.mem_append_left _ hmem

/-- C4: cookie decoding never fails the request.  Value level: a value
recognized as sealed is attempted against unseal — a successful unseal
replaces the value, a failed unseal keeps the raw, still-sealed string and
raises nothing; an unsealed value passes through; cookie names are preserved.
Request level: whenever the three input validations succeed, the handler is
reached for every cookie map and every isSealed/unseal pair — no cookie can
fail the request. -/
theorem c4_cookie_decode_never_fails (isSealed : String → Bool)
    (unsealF : String → Option String) :
    (∀ v, isSealed v = true → unsealF v = none →
      decodeCookieValue isSealed unsealF v = v) ∧
    (∀ v u, isSealed v = true → unsealF v = some u →
      decodeCookieValue isSealed unsealF v = u) ∧
    (∀ v, isSealed v = false → decodeCookieValue isSealed unsealF v = v) ∧
    (∀ cookies, (decodeCookies isSealed unsealF cookies).map Prod.fst =
      cookies.map Prod.fst) ∧
    (∀ (plugins : List Plugin) (route : RouteM) (rid : Nat) (raw : RawReq) (res0 : ResState)
        (pval qval bval : JsonV),
      (runVal route.validParams Slot.params raw.params).2 = .ok pval →
      (runVal route.validQuery Slot.query raw.query).2 = .ok qval →
      (runVal route.validPayload Slot.payload raw.payload).2 = .ok bval →
      Ev.evHandler ∈ (dispatch plugins route isSealed unsealF rid raw res0).1) := by
  refine ⟨?_, ?_, ?_, ?_, ?_⟩
  · intro v h1 h2
    simp [decodeCookieValue, h1, h2]
  · intro v u h1 h2
    simp [decodeCookieValue, h1, h2]
  · intro v h1
    simp [decodeCookieValue, h1]
  · intro cookies
    simp [decodeCookies]
  · intro plugins route rid raw res0 pval qval bval hp hq hb
    exact dispatch_handler_mem plugins route isSealed unsealF rid raw res0 pval qval bval hp hq hb

/-- C4 witness: with a sealing predicate accepting everything and an unseal
that always fails, a cookie keeps its raw value and a request carrying it
still reaches the handler. -/
theorem c4_witness :
    decodeCookieValue (fun _ => true) (fun _ => none) "Fe26.2*corrupted" = "Fe26.2*corrupted" ∧
    Ev.evHandler ∈ (dispatch []
      { path := "/p", validParams := none, validQuery := none, validPayload := none,
        validResponse := none, handler := fun _ r => (.ok .null, r) }
      (fun _ => true) (fun _ => none) 0
      { params := .null, query := .null, payload := .null,
        cookies := [("session", "Fe26.2*corrupted")] }
      { headersSent := false, customStatus := none }).1 :=
  ⟨(c4_cookie_decode_never_fails (fun _ => true) (fun _ => none)).1 "Fe26.2*corrupted" rfl rfl,
    (c4_cookie_decode_never_fails (fun _ => true) (fun _ => none)).2.2.2.2 []
      { path := "/p", validParams := none, validQuery := none, validPayload := none,
        validResponse := none, handler := fun _ r => (.ok .null, r) }
      0
      { params := .null, query := .null, payload := .null,
        cookies := [("session", "Fe26.2*corrupted")] }
      { headersSent := false, customStatus := none }
      .null .null .null rfl rfl rfl⟩

/-! stableJsonStringify (src/src/utils/serializeObject.ts): serialize a JSON
value with the properties of the top-level object, and of every object
reached through object nesting, sorted by key; values that are not plain
objects (arrays included) are left untouched by the sorting. -/

/-- Models String.prototype.localeCompare as used by sortObjProperties; the
default locale is approximated by code-unit lexicographic order (negative
when the first string sorts first, 0 on equality). -/
def localeCompare (a b : String) : Int :=
  if lexGt b.data a.data then -1 else if lexGt a.data b.data then 1 else 0

/-- isObject from @typeofweb/utils: a plain object — not null, not an
array. -/
def isObjectV : JsonV → Bool
  | .obj _ => true
  | _ => false

/-- Whether a value is JavaScript undefined. -/
def isUndefV : JsonV → Bool
  | .undef => true
  | _ => false

/-- The entry sort of sortObjProperties:
Object.entries(arg).sort(([keyA], [keyB]) => keyA.localeCompare(keyB)). -/
def sortPairs (l : List (String × JsonV)) : List (String × JsonV) :=
  sortByCmp (fun a b => localeCompare a.1 b.1) l

theorem sortPairs_sizeOf (l : List (String × JsonV)) : sizeOf (sortPairs l) = sizeOf l :=
  (sortByCmp_perm _ l).sizeOf_eq_sizeOf

mutual
/-- sortObjProperties: sort the entries by key and rebuild the object,
recursing into values that are themselves plain objects
(.sort(byKey).map(([key, val]) => isObject(val) ? [key, sort(val)] : [key, val])). -/
def sortObjProperties (fields : List (String × JsonV)) : List (String × JsonV) :=
  sortFieldsVals (sortPairs fields)
termination_by sizeOf fields + 1
decreasing_by
  simp_wf
  rw [sortPairs_sizeOf]
  omega
/-- The value-recursion map of sortObjProperties: plain-object values are
sorted recursively, every other value (arrays included) is kept as is. -/
def sortFieldsVals : List (String × JsonV) → List (String × JsonV)
  | [] => []
  | (k, JsonV.obj g) :: rest => (k, JsonV.obj (sortObjProperties g)) :: sortFieldsVals rest
  | (k, v) :: rest => (k, v) :: sortFieldsVals rest
termination_by l => sizeOf l
decreasing_by
  all_goals simp_wf
  all_goals omega
end

/-- The string escaping of JSON.stringify, restricted to quote and
backslash. -/
def escapeString (s : String) : String :=
  String.mk (s.data.foldr (fun c acc => if c = '"' ∨ c = '\\' then '\\' :: c :: acc else c :: acc) [])

/-- Comma-join of serialized fragments. -/
def joinComma : List String → String
  | [] => ""
  | [x] => x
  | x :: xs => x ++ "," ++ joinComma xs

mutual
/-- JSON.stringify on the JSON value model.  A Json value (the declared input
type of stableJsonStringify) contains no undefined; where undefined can
technically occur it follows JSON.stringify: object entries with undefined
values are omitted and array elements serialize as null. -/
def jsonStringify : JsonV → String
  | .null => "null"
  | .undef => "null"
  | .bool true => "true"
  | .bool false => "false"
  | .num n => toString n
  | .str s => "\"" ++ escapeString s ++ "\""
  | .arr xs => "[" ++ joinComma (jsonStringifyList xs) ++ "]"
  | .obj fs => "\x7b" ++ joinComma (jsonStringifyFields fs) ++ "\x7d"
termination_by v => sizeOf v
decreasing_by
  all_goals simp_wf
/-- Serialization of array elements, in order. -/
def jsonStringifyList : List JsonV → List String
  | [] => []
  | v :: rest => jsonStringify v :: jsonStringifyList rest
termination_by l => sizeOf l
decreasing_by
  all_goals simp_wf
  all_goals omega
/-- Serialization of object entries, in order, omitting undefined values. -/
def jsonStringifyFields : List (String × JsonV) → List String
  | [] => []
  | (k, v) :: rest =>
    if isUndefV v then jsonStringifyFields rest
    else ("\"" ++ escapeString k ++ "\":" ++ jsonStringify v) :: jsonStringifyFields rest
termination_by l => sizeOf l
decreasing_by
  all_goals simp_wf
  all_goals omega
end

/-- stableJsonStringify:
JSON.stringify(isObject(arg) ? sortObjProperties(arg) : arg). -/
def stableJsonStringify (arg : JsonV) : String :=
  jsonStringify (match arg with
    | .obj fields => .obj (sortObjProperties fields)
    | v => v)


theorem localeCompare_le_iff (a b : String) :
    localeCompare a b ≤ 0 ↔ lexGt a.data b.data = false := by
  simp only [localeCompare]
  by_cases h1 : lexGt b.data a.data = true
  · rw [if_pos h1]
    simp [lexGt_asymm h1]
  · rw [if_neg h1]
    by_cases h2 : lexGt a.data b.data = true
    · rw [if_pos h2]
      simp [h2]
    · rw [if_neg h2]
      simp [Bool.eq_false_iff.mpr h2]

theorem pairCmp_asym (a b : String × JsonV)
    (h : ¬ localeCompare a.1 b.1 ≤ 0) : localeCompare b.1 a.1 ≤ 0 := by
  rw [localeCompare_le_iff] at h ⊢
  rcases Bool.eq_false_or_eq_true (lexGt a.1.data b.1.data) with ht | hf
  · exact lexGt_asymm ht
  · exact absurd hf h

theorem pairCmp_trans (a b c : String × JsonV)
    (h1 : localeCompare a.1 b.1 ≤ 0) (h2 : localeCompare b.1 c.1 ≤ 0) :
    localeCompare a.1 c.1 ≤ 0 := by
  rw [localeCompare_le_iff] at h1 h2 ⊢
  exact lexGt_neg_trans h1 h2

theorem sorted_perm_eq :
    ∀ l1 l2 : List (String × JsonV), l1.Perm l2 →
      l1.Chain' (fun a b => localeCompare a.1 b.1 ≤ 0) →
      l2.Chain' (fun a b => localeCompare a.1 b.1 ≤ 0) →
      (l1.map Prod.fst).Nodup → l1 = l2 := by
  intro l1
  induction l1 with
  | nil =>
    intro l2 hperm _ _ _
    exact (hperm.symm.eq_nil).symm
  | cons h1 t1 ih =>
    intro l2 hperm hc1 hc2 hnd
    cases l2 with
    | nil =>
      have := hperm.eq_nil
      simp at this
    | cons h2 t2 =>
      haveI : IsTrans (String × JsonV) (fun a b => localeCompare a.1 b.1 ≤ 0) :=
        ⟨fun a b c => pairCmp_trans a b c⟩
      have hP1 : (h1 :: t1).Pairwise (fun a b => localeCompare a.1 b.1 ≤ 0) :=
        List.chain'_iff_pairwise.mp hc1
      have hP2 : (h2 :: t2).Pairwise (fun a b => localeCompare a.1 b.1 ≤ 0) :=
        List.chain'_iff_pairwise.mp hc2
      have hh : h1 = h2 := by
        by_contra hne
        have h1mem : h1 ∈ h2 :: t2 := hperm.subset (List.mem_cons_self h1 t1)
        have h2mem : h2 ∈ h1 :: t1 := hperm.symm.subset (List.mem_cons_self h2 t2)
        rcases List.mem_cons.mp h1mem with he | h1t2
        · exact hne he
        rcases List.mem_cons.mp h2mem with he | h2t1
        · exact hne he.symm
        have hR12 : localeCompare h1.1 h2.1 ≤ 0 :=
          (List.pairwise_cons.mp hP1).1 h2 h2t1
        have hR21 : localeCompare h2.1 h1.1 ≤ 0 :=
          (List.pairwise_cons.mp hP2).1 h1 h1t2
        have hkey : h1.1 = h2.1 :=
          String.ext (lexGt_eq_of_both_false ((localeCompare_le_iff _ _).mp hR12)
            ((localeCompare_le_iff _ _).mp hR21))
        simp only [List.map_cons, List.nodup_cons] at hnd
        exact hnd.1 (hkey ▸ List.mem_map_of_mem Prod.fst h2t1)
      subst hh
      have hperm' : t1.Perm t2 := hperm.cons_inv
      simp only [List.map_cons, List.nodup_cons] at hnd
      rw [ih t2 hperm' hc1.tail hc2.tail hnd.2]

/-- All objects reachable through object nesting have their keys sorted; the
contents of arrays are exempt (their objects keep their original key
order). -/
inductive DeepSorted : JsonV → Prop where
  | null : DeepSorted .null
  | undef : DeepSorted .undef
  | bool (b : Bool) : DeepSorted (.bool b)
  | num (n : Int) : DeepSorted (.num n)
  | str (s : String) : DeepSorted (.str s)
  | arr (xs : List JsonV) : DeepSorted (.arr xs)
  | obj (fs : List (String × JsonV)) :
      fs.Chain' (fun a b => localeCompare a.1 b.1 ≤ 0) →
      (∀ kv ∈ fs, DeepSorted kv.2) → DeepSorted (.obj fs)

theorem deepSorted_not_obj {v : JsonV} (h : isObjectV v = false) : DeepSorted v := by
  cases v with
  | null => exact .null
  | undef => exact .undef
  | bool b => exact .bool b
  | num n => exact .num n
  | str s => exact .str s
  | arr xs => exact .arr xs
  | obj fs => simp [isObjectV] at h

theorem sortFieldsVals_keys :
    ∀ l : List (String × JsonV), (sortFieldsVals l).map Prod.fst = l.map Prod.fst := by
  intro l
  induction l with
  | nil => simp [sortFieldsVals]
  | cons kv rest ih =>
    obtain ⟨k, v⟩ := kv
    cases v <;> simp [sortFieldsVals, ih]

theorem sortFieldsVals_mem :
    ∀ (l : List (String × JsonV)) (kv : String × JsonV), kv ∈ sortFieldsVals l →
      ∃ k v, (k, v) ∈ l ∧
        ((∃ g, v = JsonV.obj g ∧ kv = (k, JsonV.obj (sortObjProperties g))) ∨
          (isObjectV v = false ∧ kv = (k, v))) := by
  intro l
  induction l with
  | nil => intro kv h; simp [sortFieldsVals] at h
  | cons hd rest ih =>
    intro kv h
    obtain ⟨k, v⟩ := hd
    cases v with
    | obj g =>
      simp only [sortFieldsVals, List.mem_cons] at h
      rcases h with h | h
      · exact ⟨k, .obj g, List.mem_cons_self _ _, Or.inl ⟨g, rfl, h⟩⟩
      · obtain ⟨k', v', hmem, hcase⟩ := ih kv h
        exact ⟨k', v', List.mem_cons_of_mem _ hmem, hcase⟩
    | null =>
      simp only [sortFieldsVals, List.mem_cons] at h
      rcases h with h | h
      · exact ⟨k, .null, List.mem_cons_self _ _, Or.inr ⟨rfl, h⟩⟩
      · obtain ⟨k', v', hmem, hcase⟩ := ih kv h
        exact ⟨k', v', List.mem_cons_of_mem _ hmem, hcase⟩
    | undef =>
      simp only [sortFieldsVals, List.mem_cons] at h
      rcases h with h | h
      · exact ⟨k, .undef, List.mem_cons_self _ _, Or.inr ⟨rfl, h⟩⟩
      · obtain ⟨k', v', hmem, hcase⟩ := ih kv h
        exact ⟨k', v', List.mem_cons_of_mem _ hmem, hcase⟩
    | bool b =>
      simp only [sortFieldsVals, List.mem_cons] at h
      rcases h with h | h
      · exact ⟨k, .bool b, List.mem_cons_self _ _, Or.inr ⟨rfl, h⟩⟩
      · obtain ⟨k', v', hmem, hcase⟩ := ih kv h
        exact ⟨k', v', List.mem_cons_of_mem _ hmem, hcase⟩
    | num n =>
      simp only [sortFieldsVals, List.mem_cons] at h
      rcases h with h | h
      · exact ⟨k, .num n, List.mem_cons_self _ _, Or.inr ⟨rfl, h⟩⟩
      · obtain ⟨k', v', hmem, hcase⟩ := ih kv h
        exact ⟨k', v', List.mem_cons_of_mem _ hmem, hcase⟩
    | str s =>
      simp only [sortFieldsVals, List.mem_cons] at h
      rcases h with h | h
      · exact ⟨k, .str s, List.mem_cons_self _ _, Or.inr ⟨rfl, h⟩⟩
      · obtain ⟨k', v', hmem, hcase⟩ := ih kv h
        exact ⟨k', v', List.mem_cons_of_mem _ hmem, hcase⟩
    | arr xs =>
      simp only [sortFieldsVals, List.mem_cons] at h
      rcases h with h | h
      · exact ⟨k, .arr xs, List.mem_cons_self _ _, Or.inr ⟨rfl, h⟩⟩
      · obtain ⟨k', v', hmem, hcase⟩ := ih kv h
        exact ⟨k', v', List.mem_cons_of_mem _ hmem, hcase⟩

theorem deepSorted_sortObj :
    ∀ (n : Nat) (fields : List (String × JsonV)), sizeOf fields < n →
      DeepSorted (.obj (sortObjProperties fields)) := by
  intro n
  induction n with
  | zero => intro fields h; omega
  | succ n ih =>
    intro fields hsz
    have hunfold : sortObjProperties fields = sortFieldsVals (sortPairs fields) := by
      simp [sortObjProperties]
    rw [hunfold]
    refine DeepSorted.obj _ ?_ ?_
    · have hchain : (sortPairs fields).Chain' (fun a b => localeCompare a.1 b.1 ≤ 0) :=
        sortByCmp_chain _ pairCmp_asym fields
      have h1 : ((sortPairs fields).map Prod.fst).Chain' (fun x y => localeCompare x y ≤ 0) :=
        List.chain'_map_of_chain' Prod.fst (fun _ _ h => h) hchain
      have h2 : ((sortFieldsVals (sortPairs fields)).map Prod.fst).Chain'
          (fun x y => localeCompare x y ≤ 0) := by
        rw [sortFieldsVals_keys]
        exact h1
      exact (List.chain'_map Prod.fst).mp h2
    · intro kv hkv
      obtain ⟨k, v, hmem, hcase⟩ := sortFieldsVals_mem _ kv hkv
      have hmem' : (k, v) ∈ fields := (sortByCmp_perm _ fields).subset hmem
      rcases hcase with ⟨g, hg, hkveq⟩ | ⟨hnotobj, hkveq⟩
      · subst hg
        subst hkveq
        have hszg : sizeOf g < n := by
          have h1 := List.sizeOf_lt_of_mem hmem'
          simp only [Prod.mk.sizeOf_spec, JsonV.obj.sizeOf_spec] at h1
          omega
        exact ih g hszg
      · subst hkveq
        exact deepSorted_not_obj hnotobj

/-- C10: stableJsonStringify serializes with the properties of the top-level
object — and, recursively, of every object reached through object nesting —
sorted by key (localeCompare): two objects with the same key-value pairs in
different key orders serialize to the same string (given well-formed,
duplicate-free keys); arrays are not key-sorted, so objects nested inside
arrays are serialized with their original key order (the whole array is
passed through the sorting untouched); non-object values serialize
unchanged. -/
theorem c10_stable_serialization :
    (∀ f1 f2 : List (String × JsonV), (f1.map Prod.fst).Nodup → f1.Perm f2 →
      stableJsonStringify (.obj f1) = stableJsonStringify (.obj f2)) ∧
    (∀ fields, DeepSorted (.obj (sortObjProperties fields))) ∧
    (∀ xs, stableJsonStringify (.arr xs) = jsonStringify (.arr xs)) ∧
    (∀ v, isObjectV v = false → stableJsonStringify v = jsonStringify v) := by
  refine ⟨?_, ?_, ?_, ?_⟩
  · intro f1 f2 hnd hperm
    have hs : sortPairs f1 = sortPairs f2 := by
      refine sorted_perm_eq _ _ ?_ ?_ ?_ ?_
      · exact ((sortByCmp_perm _ f1).trans hperm).trans (sortByCmp_perm _ f2).symm
      · exact sortByCmp_chain _ pairCmp_asym f1
      · exact sortByCmp_chain _ pairCmp_asym f2
      · exact ((sortByCmp_perm _ f1).map Prod.fst).nodup_iff.mpr hnd
    have hsort : sortObjProperties f1 = sortObjProperties f2 := by
      have h1 : sortObjProperties f1 = sortFieldsVals (sortPairs f1) := by
        simp [sortObjProperties]
      have h2 : sortObjProperties f2 = sortFieldsVals (sortPairs f2) := by
        simp [sortObjProperties]
      rw [h1, h2, hs]
    simp only [stableJsonStringify]
    rw [hsort]
  · intro fields
    exact deepSorted_sortObj (sizeOf fields + 1) fields (by omega)
  · intro xs
    rfl
  · intro v hv
    cases v with
    | obj f => simp [isObjectV] at hv
    | null => rfl
    | undef => rfl
    | bool b => rfl
    | num n => rfl
    | str s => rfl
    | arr xs => rfl

/-- C10 witness: two concrete two-key objects differing only in key order
serialize identically. -/
theorem c10_witness :
    stableJsonStringify (.obj [("b", .num 1), ("a", .num 2)]) =
      stableJsonStringify (.obj [("a", .num 2), ("b", .num 1)]) :=
  c10_stable_serialization.1 [("b", JsonV.num 1), ("a", JsonV.num 2)]
    [("a", JsonV.num 2), ("b", JsonV.num 1)]
    (by decide) (List.Perm.swap ("a", JsonV.num 2) ("b", JsonV.num 1) [])
